import Mathlib

/-!
Verification development for a CDCL SAT solver (Knuth TAOCP 7.2.2.2,
Algorithm C, as implemented in `src/cdcl.cc` / `src/types.h`).

The embedding follows the source closely:

* `lit_t` (int32) literals and cells of the clause arena are modelled as
  `Int`.  `clause_t` (uint32) clause indices are stored in `lit_t` cells in
  the source via implicit conversion; the bit pattern of
  `clause_nil = 0xFFFFFFFF` equals the int32 value `-1`, so clause indices
  are modelled as `Int` throughout with `clauseNil = -1` (the uint32 ↔ int32
  reinterpretation is a bijection and every real clause index is a small
  nonnegative number).  `lit_nil = 0`.
* The clause arena `clauses` is a `List Int`; index accesses use the total
  helpers `getI`/`setI` (out-of-range reads give 0, out-of-range writes are
  dropped; all accesses performed on reachable states are in range).
* Per-variable arrays (`val`, `lev`, `oval`, `stamp`, `lstamp`, `tloc`,
  `reason`, `watch`) are modelled as total maps, indexed exactly the way the
  source indexes them (by `abs` of a literal, or by a literal for `watch`,
  or by a level for `lstamp`/`lbds`).  A separate bounds-checked model of
  the parser's arrays is given further below for the safety claims.
* The decision heap lives in `heap.h`, which is not part of the sources
  under verification; it is modelled from the spec (an activity-ordered
  max-heap with `insert`, `bump`, `delete_max`, `rescale_delta`).
* Loops whose termination is not structural (watch-list walks, the
  conflict-analysis trail walk, the recursive redundancy check) take a fuel
  parameter and return a distinguished out-of-fuel result; `CHECK` failures
  (fatal assertions in the source) are modelled as a distinguished crash
  result.
-/

namespace Cdcl

/-- `lit_nil` from `types.h`. -/
def litNil : Int := 0

/-- `clause_nil` from `types.h` (uint32 max, i.e. `-1` as an int32 cell). -/
def clauseNil : Int := -1

/-- `kMaxLemmas` from `cdcl.cc`. -/
def kMaxLemmas : Nat := 10000

/-- Exit code `SATISFIABLE` from `types.h`. -/
def satisfiableCode : Nat := 10

/-- Exit code `UNSATISFIABLE` from `types.h`. -/
def unsatisfiableCode : Nat := 20

/-- The `State` enum of `cdcl.cc`: `UNSET = 0`, `FALSE = 1`, `TRUE = 2`. -/
inductive VState where
  | UNSET : VState
  | FALSE : VState
  | TRUE : VState
deriving DecidableEq, Repr

/-- Numeric value of the `State` enum (used by `main` as `val[i] & 1`). -/
def VState.code : VState → Nat
  | .UNSET => 0
  | .FALSE => 1
  | .TRUE => 2

/-- Total read of an `Int`-indexed cell of a `List Int` arena
(out of range reads return 0; never hit on reachable states). -/
def getI (a : List Int) (i : Int) : Int :=
  if 0 ≤ i then a.getD i.toNat 0 else 0

/-- Total write of an `Int`-indexed cell of a `List Int` arena
(out of range writes are dropped; never hit on reachable states). -/
def setI (a : List Int) (i : Int) (v : Int) : List Int :=
  if 0 ≤ i then a.set i.toNat v else a

/-- Update of a total map at one key. -/
def upd {β : Type} (m : Int → β) (k : Int) (v : β) : Int → β :=
  fun x => if x = k then v else m x

/-- Update of an `ℕ`-indexed total map at one key. -/
def updN {β : Type} (m : Nat → β) (k : Nat) (v : β) : Nat → β :=
  fun x => if x = k then v else m x

/-- Modelled from the spec: the decision heap of `heap.h` is not among the
sources; per spec §2/§4.5 it is an external max-heap over variable
activities with `insert`, `bump`, `delete_max` and `rescale_delta`.
We model it as a list of member variables plus an activity map. -/
structure Heap where
  vars : List Int
  act : Int → Nat
  delta : Nat
deriving Inhabited

/-- Modelled from the spec: `Heap::insert` (re-inserts a variable unless
it is already present). -/
def Heap.insert (h : Heap) (k : Int) : Heap :=
  if k ∈ h.vars then h else { h with vars := k :: h.vars }

/-- Modelled from the spec: `Heap::bump` raises a variable's activity. -/
def Heap.bump (h : Heap) (k : Int) : Heap :=
  { h with act := upd h.act k (h.act k + h.delta) }

/-- Modelled from the spec: `Heap::rescale_delta` grows the bump increment. -/
def Heap.rescaleDelta (h : Heap) : Heap :=
  { h with delta := h.delta * 2 }

/-- Helper for `Heap.deleteMax`: the member with the largest activity
(first among ties), `lit_nil` when the heap is empty. -/
def Heap.maxVar (h : Heap) : Int :=
  h.vars.foldl (fun best x => if h.act x > h.act best then x else best)
    (h.vars.headD litNil)

/-- Modelled from the spec: `Heap::delete_max` removes and returns the
variable of maximal activity, returning `lit_nil` on an empty heap. -/
def Heap.deleteMax (h : Heap) : Int × Heap :=
  match h.vars with
  | [] => (litNil, h)
  | _ :: _ =>
      let k := h.maxVar
      (k, { h with vars := h.vars.erase k })

/-- The solver state: the fields of `struct Cnf` in `cdcl.cc`
(lines 39–107).  `trail` is indexed by trail position, `di` by level,
`b` by position in the learned-clause buffer, `lbds` by level. -/
structure Cnf where
  clauses : List Int
  val : Int → VState
  lev : Int → Int
  oval : Int → VState
  stamp : Int → Nat
  lstamp : Int → Nat
  heap : Heap
  trail : Nat → Int
  tloc : Int → Int
  f : Nat
  g : Nat
  di : Int → Nat
  reason : Int → Int
  watch : Int → Int
  b : Nat → Int
  lbds : Int → Nat
  nclauses : Nat
  nvars : Nat
  epoch : Nat
  agility : Nat
  nlemmas : Nat

/-- The `Cnf::Cnf` constructor (lines 85–107): every per-variable map takes
its initial fill value (`val` UNSET, `lev` -1, `oval` FALSE, stamps 0,
`trail`/`tloc` -1, `reason`/`watch` `clause_nil`), and the counters start
at zero. -/
def cnfInit (nvars nclauses : Nat) : Cnf :=
  { clauses := []
    val := fun _ => VState.UNSET
    lev := fun _ => -1
    oval := fun _ => VState.FALSE
    stamp := fun _ => 0
    lstamp := fun _ => 0
    heap := { vars := (List.range nvars).map (fun i => (i : Int) + 1),
              act := fun _ => 0, delta := 1 }
    trail := fun _ => -1
    tloc := fun _ => -1
    f := 0
    g := 0
    di := fun _ => 0
    reason := fun _ => clauseNil
    watch := fun _ => clauseNil
    b := fun _ => -1
    lbds := fun _ => 0
    nclauses := nclauses
    nvars := nvars
    epoch := 0
    agility := 0
    nlemmas := 0 }

/-- `Cnf::is_false` (lines 110–113). -/
def isFalse (s : Cnf) (x : Int) : Bool :=
  let v := s.val |x|
  (x > 0 && v = VState.FALSE) || (x < 0 && v = VState.TRUE)

/-- `Cnf::is_true` (lines 116–119). -/
def isTrue (s : Cnf) (x : Int) : Bool :=
  let v := s.val |x|
  (x > 0 && v = VState.TRUE) || (x < 0 && v = VState.FALSE)

/-- `Cnf::add_to_trail` (lines 238–249).  `agility` is a uint32: the
subtraction `agility -= agility >> 13` cannot underflow, and the addition
of `1 << 19` wraps modulo `2^32`. -/
def addToTrail (s : Cnf) (l d : Int) (r : Int) : Cnf :=
  let k := |l|
  let newVal : VState := if l < 0 then VState.FALSE else VState.TRUE
  let a1 := s.agility - s.agility / 2 ^ 13
  let a2 := if s.oval k ≠ newVal then (a1 + 2 ^ 19) % 2 ^ 32 else a1
  { s with
    tloc := upd s.tloc k (Int.ofNat s.f)
    trail := updN s.trail s.f l
    f := s.f + 1
    val := upd s.val k newVal
    lev := upd s.lev k d
    reason := upd s.reason k r
    agility := a2 }

/-- Loop body iteration count for `Cnf::backjump`: the loop pops one trail
entry per iteration while `f > di[level+1]`, so `f` itself bounds the
number of iterations. -/
def bjGo : Nat → Nat → Cnf → Cnf
  | 0, _, s => s
  | n + 1, target, s =>
      if s.f ≤ target then s
      else
        let f1 := s.f - 1
        let l := s.trail f1
        let k := |l|
        let s1 :=
          { s with
            f := f1
            oval := upd s.oval k (s.val k)
            val := upd s.val k VState.UNSET
            reason := upd s.reason k clauseNil
            heap := s.heap.insert k }
        bjGo n target s1

/-- `Cnf::backjump` (lines 251–262): pop the trail back to `di[level+1]`,
saving phases, unsetting values, clearing reasons and re-inserting each
variable into the heap; finally `g := f`.  (The source's `while` loop runs
at most `f` times since `f` decreases by one per iteration.) -/
def backjump (s : Cnf) (level : Int) : Cnf :=
  let s1 := bjGo s.f (s.di (level + 1)) s
  { s1 with g := s1.f }

/-- `Cnf::purge_lemmas` (lines 264–266): the body is empty in the source. -/
def purgeLemmas (s : Cnf) : Cnf := s

/-- State local to `solve` (lines 367–372): the solver state plus the current
decision level `d`, `last_restart`, and the most recent learned clause `lc`
(initially `clause_nil`). -/
structure SState where
  c : Cnf
  d : Int
  lastRestart : Nat
  lc : Int

/-- Outcome of the C5/C6 block at the top of the controller loop
(lines 379–410): report SAT, restart (`continue` back to C2), fall through
to the propagation step C3 (either because `f ≠ g` or after a decision),
or hit the fatal `CHECK` in C6. -/
inductive C5Res where
  | sat : C5Res
  | restart : SState → C5Res
  | go : SState → C5Res
  | crash : C5Res

/-- The decision loop of step C6 (lines 403–404): `delete_max` once, then
again while the drawn variable is set.  One `delete_max` happens per
iteration and the heap shrinks (or returns `lit_nil` on empty, whose `val`
is `UNSET`), so `|heap| + 1` iterations suffice. -/
def deleteMaxLoop : Nat → Cnf → Option (Int × Heap)
  | 0, _ => none
  | n + 1, s =>
      let p := s.heap.deleteMax
      if s.val p.1 ≠ VState.UNSET then deleteMaxLoop n { s with heap := p.2 }
      else some p

/-- Steps C5 and C6 of the controller (lines 379–410).  The source guard
`c->agility / pow(2,32) < 0.25` divides a uint32 by the double `2^32`;
both operands and the quotient are exactly representable, so the guard is
exactly `agility < 2^30`.  `epoch - last_restart` is unsigned arithmetic;
`last_restart` is always a previously seen `epoch`, so plain truncated
subtraction agrees with it. -/
def c5phase (ss : SState) : C5Res :=
  if ss.c.f ≠ ss.c.g then .go ss
  else if ss.c.f = ss.c.nvars then .sat
  else
    let c1 := if ss.c.nlemmas > kMaxLemmas then purgeLemmas ss.c else ss.c
    if c1.agility < 2 ^ 30 ∧ 1000 ≤ c1.epoch - ss.lastRestart then
      .restart ⟨backjump c1 0, 0, c1.epoch, ss.lc⟩
    else
      let d1 := ss.d + 1
      let c2 := { c1 with di := upd c1.di d1 c1.f }
      match deleteMaxLoop (c2.heap.vars.length + 1) c2 with
      | none => .crash
      | some (k, h1) =>
          if k = litNil then .crash
          else
            let c3 := { c2 with heap := h1 }
            let l := if c3.oval k = VState.FALSE then -k else k
            .go ⟨addToTrail c3 l d1 clauseNil, d1, ss.lastRestart, ss.lc⟩

/-- The scan over `literal(c, 2..k-1)` in step C4 (lines 444–473): tombstone
level-0 false literals, or stop at the first non-false literal and move the
clause onto its watch list.  The bound `clauses[w-1]` is read from the loop
header; the loop body only writes literal cells `w+i` with `i ≥ 2`, never
the size cell `w-1`, so the iteration count is fixed at entry.  Returns the
state, the `all_false` flag and the `tombstones` flag. -/
def scanGo (w : Int) : Nat → Int → Cnf → Bool → Cnf × Bool × Bool
  | 0, _, s, tombs => (s, true, tombs)
  | n + 1, i, s, tombs =>
      let li := getI s.clauses (w + i)
      if isFalse s li ∧ s.lev |li| = 0 then
        scanGo w n (i + 1) { s with clauses := setI s.clauses (w + i) litNil } true
      else if ¬ isFalse s li then
        let tmpv := getI s.clauses w
        let s1 := { s with clauses := setI (setI s.clauses w li) (w + i) tmpv }
        let tmp := s1.watch li
        let s2 := { s1 with watch := upd s1.watch li w,
                            clauses := setI s1.clauses (w - 2) tmp }
        (s2, false, tombs)
      else scanGo w n (i + 1) s tombs

/-- First compaction loop of lines 475–482: slide live literals left past
tombstones; returns the write index `j`.  (Bound fixed at entry; the body
writes only literal cells.) -/
def compactGo (w : Int) : Nat → Int → Int → Cnf → Cnf × Int
  | 0, _, j, s => (s, j)
  | n + 1, i, j, s =>
      if getI s.clauses (w + i) ≠ litNil then
        let s1 :=
          if i ≠ j then { s with clauses := setI s.clauses (w + j) (getI s.clauses (w + i)) }
          else s
        compactGo w n (i + 1) (j + 1) s1
      else compactGo w n (i + 1) j s

/-- Second compaction loop of lines 483–485: overwrite the tail with
tombstones. -/
def tombGo (w : Int) : Nat → Int → Cnf → Cnf
  | 0, _, s => s
  | n + 1, i, s => tombGo w n (i + 1) { s with clauses := setI s.clauses (w + i) litNil }

/-- Tombstone compaction (lines 474–490): compact live literals, refill the
tail with `lit_nil`, and shrink the recorded size when literals were
dropped. -/
def compact (s : Cnf) (w : Int) : Cnf :=
  let sz := getI s.clauses (w - 1)
  let p := compactGo w (sz - 2).toNat 2 2 s
  let s2 := tombGo w (sz - p.2).toNat p.2 p.1
  if p.2 < sz then { s2 with clauses := setI s2.clauses (w - 1) p.2 } else s2

/-- Result of processing one watched clause in step C4. -/
structure PropClauseOut where
  s : Cnf
  allFalse : Bool
  conflict : Bool
  nw : Int

/-- One iteration of the watch-list walk (lines 430–506, without the
`wll` bookkeeping): normalize so `literal(w,0) = -l`, read the successor
`nw`, then unless `literal(w,1)` is true, scan for a new watch, compact
tombstones, and either flag a conflict or enqueue the forced literal
`literal(w,1)`. -/
def propClause (s : Cnf) (l d w : Int) : PropClauseOut :=
  let s0 :=
    if getI s.clauses w ≠ -l then
      let a0 := getI s.clauses w
      let a1 := getI s.clauses (w + 1)
      let b0 := getI s.clauses (w - 2)
      let b1 := getI s.clauses (w - 3)
      let cl1 := setI (setI (setI (setI s.clauses w a1) (w + 1) a0) (w - 2) b1) (w - 3) b0
      { s with clauses := cl1 }
    else s
  let nw := getI s0.clauses (w - 2)
  if isTrue s0 (getI s0.clauses (w + 1)) then ⟨s0, true, false, nw⟩
  else
    let sz := getI s0.clauses (w - 1)
    let r := scanGo w (sz - 2).toNat 2 s0 false
    let s2 := if r.2.2 then compact r.1 w else r.1
    if r.2.1 then
      if isFalse s2 (getI s2.clauses (w + 1)) then ⟨s2, true, true, nw⟩
      else ⟨addToTrail s2 (getI s2.clauses (w + 1)) d w, true, false, nw⟩
    else ⟨s2, false, false, nw⟩

/-- The watch-list walk of step C3/C4 (lines 428–527), fuelled: returns the
state, the `found_conflict` flag, the current clause `w` at exit, and the
final `wll`.  A clause that stays on the list (`all_false`) is linked after
`wll` (or becomes the head); a conflict breaks out immediately. -/
def propWalk : Nat → Cnf → Int → Int → Int → Int → Option (Cnf × Bool × Int × Int)
  | 0, _, _, _, _, _ => none
  | n + 1, s, l, d, w, wll =>
      if w = clauseNil then some (s, false, w, wll)
      else
        let o := propClause s l d w
        if o.conflict then some (o.s, true, w, wll)
        else if o.allFalse then
          let s2 :=
            if wll = clauseNil then { o.s with watch := upd o.s.watch (-l) w }
            else { o.s with clauses := setI o.s.clauses (wll - 2) w }
          propWalk n s2 l d o.nw w
        else propWalk n o.s l d o.nw wll

/-- Step C3 (lines 413–540): dequeue `l := trail[g]`, advance `g`, walk the
watch list of `-l`, then finish the watch-list surgery (link `wll`, or set
the head, to the clause at which the walk stopped). -/
def c3phase (fuel : Nat) (s : Cnf) (d : Int) : Option (Cnf × Bool × Int) :=
  let l := s.trail s.g
  let s0 := { s with g := s.g + 1 }
  match propWalk fuel s0 l d (s0.watch (-l)) clauseNil with
  | none => none
  | some (s1, confl, w, wll) =>
      let s2 :=
        if wll = clauseNil then { s1 with watch := upd s1.watch (-l) w }
        else { s1 with clauses := setI s1.clauses (wll - 2) w }
      some (s2, confl, w)

/-- Result of a fuelled, possibly `CHECK`-crashing computation: `crash`
models a fatal assertion failure of the source, `fuel` models running out
of loop fuel. -/
inductive MRes (α : Type) where
  | ok : α → MRes α
  | crash : MRes α
  | fuel : MRes α
deriving DecidableEq

/-- A write target in `Cnf::remove_from_watchlist` (lines 223–235): the
`clause_t* x` pointer aims either at a watch-list head or at a next-pointer
cell inside the clause arena. -/
inductive Loc where
  | watchLoc : Int → Loc
  | cellLoc : Int → Loc

/-- Read through the pointer `x` of `remove_from_watchlist`. -/
def deref (s : Cnf) : Loc → Int
  | .watchLoc l => s.watch l
  | .cellLoc i => getI s.clauses i

/-- Write through the pointer `x` of `remove_from_watchlist`. -/
def writeLoc (s : Cnf) : Loc → Int → Cnf
  | .watchLoc l, v => { s with watch := upd s.watch l v }
  | .cellLoc i, v => { s with clauses := setI s.clauses i v }

/-- The splice-out walk of `remove_from_watchlist` (lines 227–234). -/
def rfwGo (cindex lit : Int) : Nat → Cnf → Loc → MRes Cnf
  | 0, _, _ => .fuel
  | n + 1, s, x =>
      let cur := deref s x
      if cur = cindex then
        .ok (writeLoc s x
          (getI s.clauses (cur - (if getI s.clauses cur = lit then 2 else 3))))
      else if getI s.clauses cur = lit then rfwGo cindex lit n s (.cellLoc (cur - 2))
      else rfwGo cindex lit n s (.cellLoc (cur - 3))

/-- `Cnf::remove_from_watchlist` (lines 223–235): remove clause `cindex`
from the watch list of its literal at `offset` (0 or 1); a no-op for the
second literal of a unit clause. -/
def removeFromWatchlist (fuelW : Nat) (s : Cnf) (cindex offset : Int) : MRes Cnf :=
  if offset = 1 ∧ getI s.clauses (cindex - 1) = 1 then .ok s
  else
    let lit := getI s.clauses (cindex + offset)
    rfwGo cindex lit fuelW s (.watchLoc lit)

mutual

/-- `Cnf::redundant` (lines 197–218), fuelled on the recursion depth: a
literal is redundant iff its reason's other literals are each at level 0,
stamped this epoch, or recursively redundant; memoized through stamp values
`epoch+1` / `epoch+2`. -/
def redundantF : Nat → Cnf → Int → MRes (Cnf × Bool)
  | 0, _, _ => .fuel
  | n + 1, s, l =>
      let k := |l|
      let r0 := s.reason k
      if r0 = clauseNil then .ok (s, false)
      else
        match redLits n k r0 (getI s.clauses (r0 - 1)).toNat 0 s with
        | .ok (s1, true) => .ok (s1, false)
        | .ok (s1, false) =>
            .ok ({ s1 with stamp := upd s1.stamp |l| (s1.epoch + 1) }, true)
        | .crash => .crash
        | .fuel => .fuel

/-- The literal loop of `Cnf::redundant` (lines 203–215).  Returns `true`
in the flag when some literal certifies non-redundancy (an early
`return false` of the source). -/
def redLits : Nat → Int → Int → Nat → Int → Cnf → MRes (Cnf × Bool)
  | _, _, _, 0, _, s => .ok (s, false)
  | n, k, r0, m + 1, i, s =>
      let a := getI s.clauses (r0 + i)
      if k = |a| then redLits n k r0 m (i + 1) s
      else if s.lev |a| = 0 then redLits n k r0 m (i + 1) s
      else if s.stamp |a| = s.epoch + 2 then .ok (s, true)
      else if s.stamp |a| < s.epoch then
        if s.lstamp (s.lev |a|) < s.epoch then
          .ok ({ s with stamp := upd s.stamp |a| (s.epoch + 2) }, true)
        else
          match redundantF n s a with
          | .ok (s1, true) => redLits n k r0 m (i + 1) s1
          | .ok (s1, false) =>
              .ok ({ s1 with stamp := upd s1.stamp |a| (s1.epoch + 2) }, true)
          | .crash => .crash
          | .fuel => .fuel
      else redLits n k r0 m (i + 1) s

end

/-- `std::swap` of two cells of the clause arena. -/
def swapCells (cl : List Int) (i j : Int) : List Int :=
  let a := getI cl i
  let c := getI cl j
  setI (setI cl i c) j a

/-- Read `trail[t]` for a `lit_t` index `t` (nonnegative on reachable
states). -/
def trailAt (s : Cnf) (t : Int) : Int :=
  if 0 ≤ t then s.trail t.toNat else 0

/-- Inner loop of the conflict preconditioning (lines 561–567): the first
position `rl_pos < cs` whose variable matches the trail literal `x`. -/
def innerFind (s : Cnf) (w x : Int) : Nat → Int → Option Int
  | 0, _ => none
  | m + 1, j =>
      if |x| = |getI s.clauses (w + j)| then some j
      else innerFind s w x m (j + 1)

/-- Conflict preconditioning (lines 557–568): scan the trail from `f-1`
downward for the rightmost trail literal occurring in the conflict clause
`w`, swap it into `literal(w,0)`, and return its position `rl_pos`. -/
def findRlGo (s : Cnf) (w cs : Int) : Nat → Nat → Option (Cnf × Int)
  | 0, _ => none
  | n + 1, rl =>
      match innerFind s w (s.trail rl) cs.toNat 0 with
      | some j => some ({ s with clauses := swapCells s.clauses w (w + j) }, j)
      | none => findRlGo s w cs n (rl - 1)

/-- Accumulator of the conflict-clause classification loop. -/
structure AnalyzeAcc where
  s : Cnf
  dp : Int
  q : Int
  r : Int
  t : Int

/-- The loop over the conflict clause's literals (lines 582–605): track the
rightmost trail location `t`, stamp and bump each new variable, count
level-`d` literals in `q`, and append the rest (negated) to the learned
tail `b`, maintaining `dp` and `lstamp`. -/
def classifyConflictGo (w d : Int) : Nat → Int → AnalyzeAcc → AnalyzeAcc
  | 0, _, acc => acc
  | n + 1, j, acc =>
      let s := acc.s
      let m := getI s.clauses (w + j)
      let t1 := if s.tloc |m| ≥ acc.t then s.tloc |m| else acc.t
      if s.stamp |m| = s.epoch then
        classifyConflictGo w d n (j + 1) { acc with t := t1 }
      else
        let s1 := { s with stamp := upd s.stamp |m| s.epoch }
        let p := s1.lev |m|
        let s2 := if p > 0 then { s1 with heap := s1.heap.bump |m| } else s1
        if p = d then
          classifyConflictGo w d n (j + 1) { acc with s := s2, q := acc.q + 1, t := t1 }
        else
          let s3 :=
            { s2 with
              b := updN s2.b acc.r.toNat (-m)
              lstamp := upd s2.lstamp p
                (if s2.lstamp p = s2.epoch then s2.epoch + 1 else s2.epoch) }
          classifyConflictGo w d n (j + 1)
            ⟨s3, max acc.dp p, acc.q, acc.r + 1, t1⟩

/-- The loop over a reason clause's literals during trail resolution
(lines 627–644): same classification as for the conflict clause, without
the `t` tracking.  Accumulates `(state, q, r, dp)`. -/
def classifyReasonGo (rc d : Int) : Nat → Int → Cnf × Int × Int × Int → Cnf × Int × Int × Int
  | 0, _, acc => acc
  | n + 1, j, acc =>
      let s := acc.1
      let m := getI s.clauses (rc + j)
      if s.stamp |m| = s.epoch then classifyReasonGo rc d n (j + 1) acc
      else
        let s1 := { s with stamp := upd s.stamp |m| s.epoch }
        let p := s1.lev |m|
        let s2 := if p > 0 then { s1 with heap := s1.heap.bump |m| } else s1
        if p = d then classifyReasonGo rc d n (j + 1) (s2, acc.2.1 + 1, acc.2.2.1, acc.2.2.2)
        else
          let s3 :=
            { s2 with
              b := updN s2.b acc.2.2.1.toNat (-m)
              lstamp := upd s2.lstamp p
                (if s2.lstamp p = s2.epoch then s2.epoch + 1 else s2.epoch) }
          classifyReasonGo rc d n (j + 1)
            (s3, acc.2.1, acc.2.2.1 + 1, max acc.2.2.2 p)

/-- The search for a level-`≥ d` literal among positions `len-1 .. 2` of a
reason clause (lines 652–657). -/
def findLiGo (s : Cnf) (rc d : Int) : Nat → Int → Option Int
  | 0, _ => none
  | n + 1, j =>
      if j < 2 then none
      else if s.lev |getI s.clauses (rc + j)| ≥ d then some j
      else findLiGo s rc d n (j - 1)

/-- `findLiGo` started at `j = len - 1` with enough fuel. -/
def findLi (s : Cnf) (rc d len : Int) : Option Int :=
  findLiGo s rc d (len.toNat + 1) (len - 1)

/-- The subsumption shrink writes of lines 660–665: overwrite
`literal(rc,0)` with the literal at position `li`, move the last literal
into the hole, tombstone the last slot, decrement the size, and prepend
`rc` onto the watch list of its new first literal. -/
def otfShrink (s2 : Cnf) (rc li len : Int) : Cnf :=
  let c1 := setI s2.clauses rc (getI s2.clauses (rc + li))
  let c2 := setI c1 (rc + li) (getI c1 (rc + len - 1))
  let c3 := setI c2 (rc + len - 1) litNil
  let c4 := setI c3 (rc - 1) (getI c3 (rc - 1) - 1)
  let s3 := { s2 with clauses := c4 }
  let lit0 := getI s3.clauses rc
  { s3 with
    clauses := setI s3.clauses (rc - 2) (s3.watch lit0)
    watch := upd s3.watch lit0 rc }

/-- Processing of one stamped trail literal `l` during the resolution walk
(lines 617–668): decrement `q`; if `l` has a reason clause, normalize it so
`literal(rc,0) = l`, classify its other literals, and if
`q + r + 1 < size(rc)` and `q > 0`, perform the on-the-fly subsumption
shrink (Ex. 270): splice `rc` off the old watch list, overwrite
`literal(rc,0)` with a level-`≥ d` literal from position `≥ 2`, move the
last literal into the hole, tombstone the last slot, decrement the size,
and prepend `rc` to the watch list of its new first literal. -/
def resolveStamped (fuelW : Nat) (s : Cnf) (l d q r dp : Int) :
    MRes (Cnf × Int × Int × Int) :=
  let q1 := q - 1
  let rc := s.reason |l|
  if rc = clauseNil then .ok (s, q1, r, dp)
  else
    let s0 :=
      if getI s.clauses rc ≠ l then
        { s with clauses := swapCells (swapCells s.clauses rc (rc + 1)) (rc - 2) (rc - 3) }
      else s
    let acc := classifyReasonGo rc d (getI s0.clauses (rc - 1) - 1).toNat 1 (s0, q1, r, dp)
    let s1 := acc.1
    let q2 := acc.2.1
    let r2 := acc.2.2.1
    let dp2 := acc.2.2.2
    if q2 + r2 + 1 < getI s1.clauses (rc - 1) ∧ q2 > 0 then
      match removeFromWatchlist fuelW s1 rc 0 with
      | .ok s2 =>
          let len := getI s2.clauses (rc - 1)
          match findLi s2 rc d len with
          | none => .crash
          | some li => .ok (otfShrink s2 rc li len, q2, r2, dp2)
      | .crash => .crash
      | .fuel => .fuel
    else .ok (s1, q2, r2, dp2)

/-- The trail-resolution loop of conflict analysis (lines 610–670): walk
the trail backwards from `t` while `q > 0`, resolving each stamped literal
via `resolveStamped`.  Returns `(state, r, dp, t)`. -/
def resolveWalk (fuelW : Nat) (d : Int) : Nat → Cnf → Int → Int → Int → Int →
    MRes (Cnf × Int × Int × Int)
  | 0, _, _, _, _, _ => .fuel
  | n + 1, s, t, q, r, dp =>
      if q > 0 then
        let l := trailAt s t
        let t1 := t - 1
        if s.stamp |l| = s.epoch then
          match resolveStamped fuelW s l d q r dp with
          | .ok (s1, q1, r1, dp1) => resolveWalk fuelW d n s1 t1 q1 r1 dp1
          | .crash => .crash
          | .fuel => .fuel
        else resolveWalk fuelW d n s t1 q r dp
      else .ok (s, r, dp, t)

/-- The skip back to the first UIP (lines 672–674): walk `t` down past
unstamped trail literals; returns `(l', t)`. -/
def lpSkipGo : Nat → Cnf → Int → Option (Int × Int)
  | 0, _, _ => none
  | n + 1, s, t =>
      let lp := trailAt s t
      if s.stamp |lp| ≠ s.epoch then lpSkipGo n s (t - 1) else some (lp, t)

/-- Learned-clause minimization (lines 681–692): drop each `b[i]` whose
level is doubly represented (`lstamp = epoch+1`) and which is redundant;
compact the survivors in place.  Returns `(state, rr)`. -/
def minimizeGo (fuelR : Nat) : Nat → Int → Int → Cnf → MRes (Cnf × Int)
  | 0, _, rr, s => .ok (s, rr)
  | m + 1, i, rr, s =>
      let bi := s.b i.toNat
      if s.lstamp (s.lev |bi|) = s.epoch + 1 then
        match redundantF fuelR s (-bi) with
        | .ok (s1, true) => minimizeGo fuelR m (i + 1) rr s1
        | .ok (s1, false) =>
            minimizeGo fuelR m (i + 1) (rr + 1)
              { s1 with b := updN s1.b rr.toNat (s1.b i.toNat) }
        | .crash => .crash
        | .fuel => .fuel
      else
        minimizeGo fuelR m (i + 1) (rr + 1) { s with b := updN s.b rr.toNat (s.b i.toNat) }

/-- The subsumption-count loop of Ex. 271 (lines 704–711), read-only:
returns the final `q`. -/
def subsumeGo (s : Cnf) (lc lp dp : Int) : Nat → Int → Int → Int
  | 0, _, qq => qq
  | n + 1, j, qq =>
      if qq > 0 ∧ j ≥ qq then
        let x := getI s.clauses (lc + j)
        let qq1 :=
          if x = -lp ∨ (s.stamp |x| = s.epoch ∧ s.val |x| ≠ VState.UNSET ∧ s.lev |x| ≤ dp)
          then qq - 1 else qq
        subsumeGo s lc lp dp n (j - 1) qq1
      else qq

/-- Immediate-predecessor subsumption, Ex. 271 (lines 702–719): if every
literal of the previous learned clause `lc` is `-l'` or stamped, assigned
and at level `≤ dp`, and `lc` is not locked, remove `lc` from both watch
lists and truncate the arena back to before its header. -/
def subsumePrev (fuelW : Nat) (s : Cnf) (lc lp dp r : Int) : MRes Cnf :=
  if lc = clauseNil then .ok s
  else
    let j0 := getI s.clauses (lc - 1) - 1
    let qq := subsumeGo s lc lp dp (j0.toNat + 1) j0 (r + 1)
    if qq = 0 ∧ s.val |getI s.clauses lc| = VState.UNSET then
      match removeFromWatchlist fuelW s lc 0 with
      | .ok s1 =>
          match removeFromWatchlist fuelW s1 lc 1 with
          | .ok s2 => .ok { s2 with clauses := s2.clauses.take (lc - 3).toNat }
          | .crash => .crash
          | .fuel => .fuel
      | .crash => .crash
      | .fuel => .fuel
    else .ok s

/-- The literal-installation loop of step C9 (lines 731–743): stamp `lbds`,
push each `-b[j]`, placing the first level-`dp` literal at `literal(lc,1)`
and onto its watch list. -/
def learnLoop (lc dp : Int) : Nat → Nat → Bool → Cnf → Cnf × Bool
  | 0, _, fw, s => (s, fw)
  | n + 1, j, fw, s =>
      let bj := s.b j
      let s0 := { s with lbds := upd s.lbds (s.lev |bj|) s.epoch }
      if fw ∨ s0.lev |bj| < dp then
        learnLoop lc dp n (j + 1) fw { s0 with clauses := s0.clauses ++ [-bj] }
      else
        let c1 := setI s0.clauses (lc + 1) (-bj)
        let c2 := setI c1 (lc - 3) (s0.watch (-bj))
        learnLoop lc dp n (j + 1) true { s0 with clauses := c2, watch := upd s0.watch (-bj) lc }

/-- The LBD count of lines 747–748: `1` plus the number of levels
`j ∈ [0, d]` stamped with the current epoch. -/
def lbdCount (s : Cnf) : Nat → Int → Int → Int
  | 0, _, acc => acc
  | n + 1, j, acc => lbdCount s n (j + 1) (if s.lbds j = s.epoch then acc + 1 else acc)

/-- Step C9 (lines 721–759): append the learned clause
`(-l') ∨ -b[0] ∨ … ∨ -b[r-1]` with its 4-cell header, install watches,
compute and store the LBD in slot `lc-4`, bump `nlemmas`, assert `-l'` on
the trail with the new clause as reason, and rescale the heap delta.
Returns the new `lc`.  (`d = dp` holds at the call site, line 696.) -/
def learnStep (s : Cnf) (lp d dp r : Int) : MRes (Cnf × Int) :=
  let c0 := s.clauses ++ [0, clauseNil, s.watch (-lp), r + 1]
  let lc := (c0.length : Int)
  let s1 := { s with clauses := c0 ++ [-lp] }
  let s2 := { s1 with watch := upd s1.watch (-lp) lc }
  let s3 := { s2 with clauses := s2.clauses ++ [clauseNil] }
  let s4 := { s3 with lbds := upd s3.lbds (s3.lev |lp|) s3.epoch }
  let p := learnLoop lc dp r.toNat 0 false s4
  if r ≠ 0 ∧ p.2 = false then .crash
  else
    let lbd := lbdCount p.1 (d + 1).toNat 0 1
    let s6 := { p.1 with clauses := setI p.1.clauses (lc - 4) lbd }
    let s7 := { s6 with nlemmas := s6.nlemmas + 1 }
    let s8 := addToTrail s7 (-lp) d lc
    .ok ({ s8 with heap := s8.heap.rescaleDelta }, lc)

/-- Steps C7 (analysis), C8 (backjump) and C9 (learning), lines 553–761:
precondition the conflict clause, stamp and classify, resolve along the
trail, find the first UIP `l'`, minimize, backjump to `dp`, try to subsume
the previous learned clause, and install the new one.  Returns the state,
the new decision level (`dp`) and the new `lc`. -/
def analyze (fuel fuelW fuelR : Nat) (s : Cnf) (d lc0 w : Int) : MRes (Cnf × Int × Int) :=
  let cs := getI s.clauses (w - 1)
  match findRlGo s w cs s.f (s.f - 1) with
  | none => .fuel
  | some (sA, rlPos) =>
      let sB := { sA with epoch := sA.epoch + 3 }
      let v0 := |getI sB.clauses w|
      let sC := { sB with stamp := upd sB.stamp v0 sB.epoch, heap := sB.heap.bump v0 }
      let acc := classifyConflictGo w d (cs - 1).toNat 1 ⟨sC, 0, 0, 0, sC.tloc v0⟩
      let sD := { acc.s with clauses := swapCells acc.s.clauses w (w + rlPos) }
      match resolveWalk fuelW d fuel sD acc.t acc.q acc.r acc.dp with
      | .crash => .crash
      | .fuel => .fuel
      | .ok (sE, r1, dp1, t1) =>
          match lpSkipGo fuel sE t1 with
          | none => .fuel
          | some (lp, _) =>
              match minimizeGo fuelR r1.toNat 0 0 sE with
              | .crash => .crash
              | .fuel => .fuel
              | .ok (sF, rr) =>
                  let sG := backjump sF dp1
                  match subsumePrev fuelW sG lc0 lp dp1 rr with
                  | .crash => .crash
                  | .fuel => .fuel
                  | .ok sH =>
                      match learnStep sH lp dp1 dp1 rr with
                      | .crash => .crash
                      | .fuel => .fuel
                      | .ok (sI, lc1) => .ok (sI, dp1, lc1)

/-- Result of one iteration of the controller loop. -/
inductive StepRes where
  | sat : Cnf → StepRes
  | unsat : Cnf → StepRes
  | again : SState → StepRes
  | crash : StepRes
  | fuel : StepRes

/-- One iteration of the `while (true)` controller loop of `solve`
(lines 373–762): C5/C6 (solution check, restart, decision), then C3/C4
(propagation), then on a conflict either `return false` (C7 with `d = 0`)
or analysis/backjump/learning. -/
def solveBody (fuel fuelW fuelR : Nat) (ss : SState) : StepRes :=
  match c5phase ss with
  | .sat => .sat ss.c
  | .crash => .crash
  | .restart ss1 => .again ss1
  | .go ss1 =>
      match c3phase fuel ss1.c ss1.d with
      | none => .fuel
      | some (c2, false, _) => .again { ss1 with c := c2 }
      | some (c2, true, w) =>
          if ss1.d = 0 then .unsat c2
          else
            match analyze fuel fuelW fuelR c2 ss1.d ss1.lc w with
            | .ok (c3, d1, lc1) => .again ⟨c3, d1, ss1.lastRestart, lc1⟩
            | .crash => .crash
            | .fuel => .fuel

/-- Result of running the controller loop to completion (within fuel). -/
inductive SolveRes where
  | sat : Cnf → SolveRes
  | unsat : Cnf → SolveRes
  | crash : SolveRes
  | fuel : SolveRes

/-- The controller loop, iterated. -/
def solveLoop : Nat → Nat → Nat → Nat → SState → SolveRes
  | 0, _, _, _, _ => .fuel
  | n + 1, fuel, fuelW, fuelR, ss =>
      match solveBody fuel fuelW fuelR ss with
      | .sat c => .sat c
      | .unsat c => .unsat c
      | .again ss1 => solveLoop n fuel fuelW fuelR ss1
      | .crash => .crash
      | .fuel => .fuel

/-- `solve` (lines 367–765): run the controller loop from `d = 0`,
`last_restart = 0`, `lc = clause_nil`. -/
def solve (iters fuel fuelW fuelR : Nat) (c : Cnf) : SolveRes :=
  solveLoop iters fuel fuelW fuelR ⟨c, 0, 0, clauseNil⟩

/-- The verdict part of `main` (lines 775–789): the printed status line and
the process exit code for each `solve` outcome. -/
def mainVerdict (res : Bool) : String × Nat :=
  if res then ("s SATISFIABLE", satisfiableCode)
  else ("s UNSATISFIABLE", unsatisfiableCode)

/-!
### Array-level model of the parser

For the safety and parsing claims, `parse` (lines 286–363) is modelled over
lists of the exact sizes allocated by `Cnf::Cnf`, with bounds-checked
access to the per-variable arrays `val`, `lev`, `oval`, `stamp`, `tloc`,
`reason` and to `watch`: an out-of-range index — undefined behavior in the
C++ — is modelled as the error `PErr.oob`.  `UNSAT_EXIT` (printing
`s UNSATISFIABLE` and exiting with code 20; the macro lives in a header
outside the sources, modelled from the spec §7) is the error `PErr.unsat`.
The token stream is the list of integers following the `p cnf` header;
`fscanf` hitting end-of-file is the end of the list.
-/

/-- Parse-time outcome: an out-of-bounds array access (undefined behavior
in the source) or `UNSAT_EXIT`. -/
inductive PErr where
  | oob : PErr
  | unsat : PErr
deriving DecidableEq

/-- Bounds-checked array read. -/
def aGet {α : Type} (a : List α) (k : Int) : Except PErr α :=
  if h : 0 ≤ k ∧ k.toNat < a.length then .ok (a.get ⟨k.toNat, h.2⟩) else .error .oob

/-- Bounds-checked array write. -/
def aSet {α : Type} (a : List α) (k : Int) (v : α) : Except PErr (List α) :=
  if 0 ≤ k ∧ k.toNat < a.length then .ok (a.set k.toNat v) else .error .oob

/-- `struct Cnf` with the per-variable arrays kept at their allocated
sizes (`Cnf::Cnf`, lines 85–107).  The trail is kept as a total map of
positions (the claims under verification do not concern `trail` indexing,
cf. C10's list of arrays). -/
structure PCnf where
  clauses : List Int
  val : List VState
  lev : List Int
  oval : List VState
  stamp : List Nat
  lstamp : List Nat
  trail : Nat → Int
  tloc : List Int
  f : Nat
  g : Nat
  di : List Nat
  reason : List Int
  watchStorage : List Int
  b : List Int
  lbds : List Nat
  nclauses : Nat
  nvars : Nat
  epoch : Nat
  agility : Nat
  nlemmas : Nat

/-- `watch[l]` is `watch_storage[nvars + l]` (line 99). -/
def wGet (s : PCnf) (l : Int) : Except PErr Int :=
  aGet s.watchStorage ((s.nvars : Int) + l)

/-- Write `watch[l]`. -/
def wSet (s : PCnf) (l v : Int) : Except PErr PCnf := do
  let st ← aSet s.watchStorage ((s.nvars : Int) + l) v
  .ok { s with watchStorage := st }

/-- `Cnf::Cnf` (lines 85–107) at array level: `val`, `lev`, `oval`,
`stamp`, `lstamp`, `tloc`, `reason` have `nvars + 1` entries,
`watch_storage` has `2*nvars + 1`, `trail`, `di`, `b`, `lbds` have
`nvars`. -/
def pInit (nvars nclauses : Nat) : PCnf :=
  { clauses := []
    val := List.replicate (nvars + 1) VState.UNSET
    lev := List.replicate (nvars + 1) (-1)
    oval := List.replicate (nvars + 1) VState.FALSE
    stamp := List.replicate (nvars + 1) 0
    lstamp := List.replicate (nvars + 1) 0
    trail := fun _ => -1
    tloc := List.replicate (nvars + 1) (-1)
    f := 0
    g := 0
    di := List.replicate nvars 0
    reason := List.replicate (nvars + 1) clauseNil
    watchStorage := List.replicate (2 * nvars + 1) clauseNil
    b := List.replicate nvars (-1)
    lbds := List.replicate nvars 0
    nclauses := nclauses
    nvars := nvars
    epoch := 0
    agility := 0
    nlemmas := 0 }

/-- The literal-reading loop of `parse` (lines 315–320): push literals into
the arena until a `0` terminator or end of input; returns the state, the
number of literals read (`cs`), the remaining tokens, and whether the end
of input was hit (`nc == EOF`). -/
def readLits : PCnf → List Int → Nat → PCnf × Nat × List Int × Bool
  | s, [], n => (s, n, [], true)
  | s, t :: rest, n =>
      if t = 0 then (s, n, rest, false)
      else readLits { s with clauses := s.clauses ++ [t] } rest (n + 1)

/-- The unit-clause handling of `parse` (lines 328–339): immediately assign
the literal `x` at level 0 — `val`, `tloc`, `trail`, `f`, `lev` — or
`UNSAT_EXIT` when it contradicts an earlier unit. -/
def unitAssign (s : PCnf) (x : Int) : Except PErr PCnf := do
  let sv := if x < 0 then VState.FALSE else VState.TRUE
  let cur ← aGet s.val |x|
  if cur ≠ VState.UNSET ∧ cur ≠ sv then .error .unsat
  else do
    let val1 ← aSet s.val |x| sv
    let tloc1 ← aSet s.tloc |x| (Int.ofNat s.f)
    let trail1 := updN s.trail s.f x
    let lev1 ← aSet s.lev |x| 0
    .ok { s with val := val1, tloc := tloc1, trail := trail1, f := s.f + 1, lev := lev1 }

/-- The size/watch-list installation of `parse` (lines 343–354): record the
clause size at `start-1`, link the clause into the watch list of its first
literal, and, when `cs > 1`, of its second literal. -/
def watchInstall (s : PCnf) (start cs : Nat) : Except PErr PCnf := do
  let s1 := { s with clauses := setI s.clauses ((start : Int) - 1) (cs : Int) }
  let l0 := getI s1.clauses (start : Int)
  let w0 ← wGet s1 l0
  let s2 ← wSet { s1 with clauses := setI s1.clauses ((start : Int) - 2) w0 } l0 (start : Int)
  if cs > 1 then do
    let l1 := getI s2.clauses ((start : Int) + 1)
    let w1 ← wGet s2 l1
    wSet { s2 with clauses := setI s2.clauses ((start : Int) - 3) w1 } l1 (start : Int)
  else .ok s2

/-- One iteration of the clause-reading `do … while` loop of `parse`
(lines 308–355): push the 4-cell header (`0` for the LBD, `lit_nil`
elsewhere), read literals, handle the empty (UNSAT), end-of-input
(pop the headers) and unit cases, and install watches.  Returns the state,
the remaining tokens, the `break` flag (`!read_lit`), and the EOF flag. -/
def parseClauseStep (s : PCnf) (tokens : List Int) :
    Except PErr (PCnf × List Int × Bool × Bool) := do
  let s0 := { s with clauses := s.clauses ++ [0, litNil, litNil, litNil] }
  let start := s0.clauses.length
  let ro := readLits s0 tokens 0
  let s1 := ro.1
  let cs := ro.2.1
  let rest := ro.2.2.1
  let eof := ro.2.2.2
  if cs = 0 ∧ ¬eof then .error .unsat
  else do
    let s2 ←
      if cs = 0 ∧ eof then
        .ok { s1 with clauses := s1.clauses.dropLast.dropLast.dropLast.dropLast }
      else if cs = 1 then unitAssign s1 (getI s1.clauses ((s1.clauses.length : Int) - 1))
      else .ok s1
    if cs = 0 then .ok (s2, rest, true, eof)
    else do
      let s3 ← watchInstall s2 start cs
      .ok (s3, rest, false, eof)

/-- The clause-reading loop of `parse`, iterated (each iteration with a
nonempty token list consumes at least one token, so `|tokens| + 1` rounds
suffice; the fuel-exhausted branch is unreachable at that fuel). -/
def parseLoop : Nat → PCnf → List Int → Except PErr PCnf
  | 0, s, _ => .ok s
  | n + 1, s, tokens => do
      let o ← parseClauseStep s tokens
      if o.2.2.1 then .ok o.1
      else if o.2.2.2 then .ok o.1
      else parseLoop n o.1 o.2.1

/-- `parse` (lines 286–363) on the token stream following the `p cnf`
header: run the clause loop and `UNSAT_EXIT` when no clause cells were
ever kept. -/
def parseCnf (nvars nclauses : Nat) (tokens : List Int) : Except PErr PCnf := do
  let s ← parseLoop (tokens.length + 1) (pInit nvars nclauses) tokens
  if s.clauses.isEmpty then .error .unsat else .ok s

/-- `Cnf::add_to_trail` (lines 238–249) at array level, bounds-checked. -/
def addToTrailA (s : PCnf) (l d r : Int) : Except PErr PCnf := do
  let k := |l|
  let tloc1 ← aSet s.tloc k (Int.ofNat s.f)
  let trail1 := updN s.trail s.f l
  let nv := if l < 0 then VState.FALSE else VState.TRUE
  let val1 ← aSet s.val k nv
  let lev1 ← aSet s.lev k d
  let reason1 ← aSet s.reason k r
  let ov ← aGet s.oval k
  let vv ← aGet val1 k
  let a1 := s.agility - s.agility / 2 ^ 13
  let a2 := if ov ≠ vv then (a1 + 2 ^ 19) % 2 ^ 32 else a1
  .ok { s with tloc := tloc1, trail := trail1, f := s.f + 1, val := val1,
               lev := lev1, reason := reason1, agility := a2 }

/-- Read an `Int`-indexed entry of a sized array with the array's initial
fill value as the (unreachable) out-of-range default. -/
def idxD {α : Type} (a : List α) (dflt : α) (k : Int) : α :=
  if 0 ≤ k then a.getD k.toNat dflt else dflt

/-- View a parsed array-level state as a solver state (the total-map view
used by the `solve` embedding). -/
def toCnf (p : PCnf) : Cnf :=
  { clauses := p.clauses
    val := idxD p.val VState.UNSET
    lev := idxD p.lev (-1)
    oval := idxD p.oval VState.FALSE
    stamp := fun k => if 0 ≤ k then p.stamp.getD k.toNat 0 else 0
    lstamp := fun k => if 0 ≤ k then p.lstamp.getD k.toNat 0 else 0
    heap := (cnfInit p.nvars p.nclauses).heap
    trail := p.trail
    tloc := idxD p.tloc (-1)
    f := p.f
    g := p.g
    di := fun k => if 0 ≤ k then p.di.getD k.toNat 0 else 0
    reason := idxD p.reason clauseNil
    watch := fun l => idxD p.watchStorage clauseNil ((p.nvars : Int) + l)
    b := fun j => p.b.getD j (-1)
    lbds := fun k => if 0 ≤ k then p.lbds.getD k.toNat 0 else 0
    nclauses := p.nclauses
    nvars := p.nvars
    epoch := p.epoch
    agility := p.agility
    nlemmas := p.nlemmas }

/-- The array sizes allocated by `Cnf::Cnf` (lines 85–107): the
per-variable arrays have `nvars + 1` entries and `watch_storage` has
`2*nvars + 1`. -/
def pWfP (s : PCnf) : Prop :=
  s.val.length = s.nvars + 1 ∧ s.lev.length = s.nvars + 1 ∧
  s.oval.length = s.nvars + 1 ∧ s.stamp.length = s.nvars + 1 ∧
  s.lstamp.length = s.nvars + 1 ∧ s.tloc.length = s.nvars + 1 ∧
  s.reason.length = s.nvars + 1 ∧ s.watchStorage.length = 2 * s.nvars + 1

/-- The `main` pipeline (lines 767–790): parse, then solve, then print the
verdict and exit.  A parse-time `UNSAT_EXIT` prints `s UNSATISFIABLE` and
exits 20 before `solve` is ever invoked; an out-of-bounds parse access is
undefined behavior and carries no contract here. -/
def mainRun (nvars nclauses : Nat) (tokens : List Int) (iters fuel fuelW fuelR : Nat) :
    String × Nat :=
  match parseCnf nvars nclauses tokens with
  | .error .unsat => ("s UNSATISFIABLE", unsatisfiableCode)
  | .error .oob => ("", 0)
  | .ok p =>
      match solve iters fuel fuelW fuelR (toCnf p) with
      | .sat _ => mainVerdict true
      | .unsat _ => mainVerdict false
      | .crash => ("", 0)
      | .fuel => ("", 0)

/-! ### Small observers used to state theorems over fallible results -/

/-- Whether an `MRes` is an `ok`. -/
def mresIsOk {α : Type} : MRes α → Bool
  | .ok _ => true
  | .crash => false
  | .fuel => false

/-- The payload of an `MRes`, with a default. -/
def mresGetD {α : Type} (dflt : α) : MRes α → α
  | .ok a => a
  | .crash => dflt
  | .fuel => dflt

/-- Whether an `Except` is an `ok`. -/
def excIsOk {ε α : Type} : Except ε α → Bool
  | .ok _ => true
  | .error _ => false

/-- The payload of an `Except`, with a default. -/
def excGetD {ε α : Type} (dflt : α) : Except ε α → α
  | .ok a => a
  | .error _ => dflt

/-- The error of an `Except`, if any. -/
def errOf {ε α : Type} : Except ε α → Option ε
  | .ok _ => none
  | .error e => some e

/-- Whether a controller-loop iteration returned `false` (UNSAT). -/
def stepResIsUnsat : StepRes → Bool
  | .unsat _ => true
  | .sat _ => false
  | .again _ => false
  | .crash => false
  | .fuel => false

/-- The solver state carried by a terminal `StepRes`, with a default. -/
def stepResCnf (dflt : Cnf) : StepRes → Cnf
  | .sat c => c
  | .unsat c => c
  | .again ss => ss.c
  | .crash => dflt
  | .fuel => dflt

/-! ### Named subterms of the on-the-fly subsumption step (for C4) -/

/-- The classification accumulator `(state, q, r, dp)` after the literal
loop of the reason clause of `l` inside `resolveStamped` (the source's
values of `q`, `r`, `dp` at line 645). -/
def c4Acc (s : Cnf) (l d q r dp : Int) : Cnf × Int × Int × Int :=
  classifyReasonGo (s.reason |l|) d
    (getI s.clauses (s.reason |l| - 1) - 1).toNat 1 (s, q - 1, r, dp)

/-- The state after `remove_from_watchlist(rc, 0)` inside the subsumption
branch of `resolveStamped` (line 646). -/
def c4S2 (fuelW : Nat) (s : Cnf) (l d q r dp : Int) : Cnf :=
  mresGetD (c4Acc s l d q r dp).1
    (removeFromWatchlist fuelW (c4Acc s l d q r dp).1 (s.reason |l|) 0)

/-- The position `li` selected at lines 652–657 inside `resolveStamped`. -/
def c4Li (fuelW : Nat) (s : Cnf) (l d q r dp : Int) : Int :=
  (findLi (c4S2 fuelW s l d q r dp) (s.reason |l|) d
    (getI (c4S2 fuelW s l d q r dp).clauses (s.reason |l| - 1))).getD 0

/-! ### Concrete states used by counterexamples and witnesses -/

/-- A solver state with variable 3 decided at level 1 (trail `[3]`,
`f = 1`, `di 1 = 0`): the shape reached from any 3-variable input after
one decision. -/
def cexC5 : Cnf :=
  { cnfInit 3 1 with
      val := upd (fun _ => VState.UNSET) 3 VState.TRUE
      lev := upd (fun _ => -1) 3 1
      trail := updN (fun _ => -1) 0 3
      tloc := upd (fun _ => -1) 3 0
      f := 1
      g := 1 }

/-- A solver state at `f = g`, `f < nvars`, zero agility, and 2000 epochs
since the last restart: the restart guard of C5 fires. -/
def wC6 : SState := ⟨{ cnfInit 1 1 with epoch := 2000 }, 0, 0, clauseNil⟩

/-- A mid-analysis state for the resolution walk: the reason clause of the
stamped literal `5` is `(5 ∨ -6 ∨ -7)` at arena index 4, variable 6 is a
stamped level-`d` variable (the future UIP), and variable 7 is the single
current entry of the learned tail `b` (also stamped, at level 1); the
current decision level is `d = 2`. -/
def cexC4 : Cnf :=
  { cnfInit 8 1 with
      clauses := [0, -1, -1, 3, 5, -6, -7]
      reason := upd (fun _ => clauseNil) 5 4
      stamp := fun k => if k = 5 ∨ k = 6 ∨ k = 7 then 3 else 0
      lev := fun k => if k = 5 ∨ k = 6 then 2 else if k = 7 then 1 else -1
      epoch := 3
      b := updN (fun _ => -1) 0 7
      watch := fun l => if l = 5 then 4 else clauseNil }

/-- A mid-analysis state like `cexC4` but where the reason clause
`(5 ∨ -6 ∨ -7 ∨ -8)` at index 4 contains two pending stamped level-`d`
variables (6 and 7) besides `l = 5`, plus the single learned-tail entry
(variable 8 at level 1): after the classification loop `q` is still
positive and `q + r + 1 < size`, so the on-the-fly subsumption shrink
fires. -/
def wC4 : Cnf :=
  { cnfInit 8 1 with
      clauses := [0, -1, -1, 4, 5, -6, -7, -8]
      reason := upd (fun _ => clauseNil) 5 4
      stamp := fun k => if k = 5 ∨ k = 6 ∨ k = 7 ∨ k = 8 then 3 else 0
      lev := fun k => if k = 5 ∨ k = 6 ∨ k = 7 then 2 else if k = 8 then 1 else -1
      epoch := 3
      b := updN (fun _ => -1) 0 8
      watch := fun l => if l = 5 then 4 else clauseNil }

/-- The parsed state of the DIMACS input
`p cnf 3 4 / -1 -2 0 / -1 -2 3 0 / -1 2 0 / 1 0` (one forced unit). -/
def cex3P : PCnf :=
  excGetD (pInit 3 4) (parseCnf 3 4 [-1, -2, 0, -1, -2, 3, 0, -1, 2, 0, 1, 0])

/-- The controller state entering `solve` on that input. -/
def cex3S : SState := ⟨toCnf cex3P, 0, 0, clauseNil⟩

/-- The propagation outcome of the first controller iteration on `cex3S`
(the state handed to C7). -/
def cex3Out : Cnf :=
  ((c3phase 100 cex3S.c 0).getD (cex3S.c, false, 0)).1

/-- The conflict clause found in that iteration. -/
def cex3W : Int :=
  ((c3phase 100 cex3S.c 0).getD (cex3S.c, false, 0)).2.2

/-!
## Theorems

First some bookkeeping lemmas about the arena helpers and about which
fields each operation can touch, then one theorem (with witness or
counterexample where required) per claim.
-/

theorem setI_length (a : List Int) (i v : Int) : (setI a i v).length = a.length := by
  unfold setI; split <;> simp

theorem getI_setI_ne (a : List Int) (i j v : Int) (h : i ≠ j) :
    getI (setI a i v) j = getI a j := by
  unfold getI setI
  by_cases hi : 0 ≤ i <;> by_cases hj : 0 ≤ j <;> simp [hi, hj]
  have hne : i.toNat ≠ j.toNat := by omega
  rw [List.getElem?_set_ne hne]

theorem getI_setI_eq (a : List Int) (i v : Int) (h0 : 0 ≤ i)
    (h1 : i.toNat < a.length) : getI (setI a i v) i = v := by
  unfold getI setI
  simp only [h0, if_true]
  rw [List.getD_eq_getElem _ _ (by simpa using h1)]
  simp [List.getElem_set]

theorem upd_self {β : Type} (m : Int → β) (k : Int) (v : β) : upd m k v k = v := by
  simp [upd]

/-- `add_to_trail` updates `val` at `|l|` to the sign of `l`. -/
theorem addToTrail_val (s : Cnf) (l d r : Int) :
    (addToTrail s l d r).val |l| = (if l < 0 then VState.FALSE else VState.TRUE) := by
  simp [addToTrail, upd_self]

/-- C7: on every call to `add_to_trail`, `agility` becomes
`agility - (agility >> 13)`, plus `2^19` exactly when the saved phase
`oval(|l|)` differs from the newly stored `val(|l|)`, modulo `2^32`. -/
theorem addToTrail_agility (s : Cnf) (l d r : Int) (h : s.agility < 2 ^ 32) :
    (addToTrail s l d r).agility =
      ((s.agility - s.agility >>> 13) +
        (if s.oval |l| ≠ (addToTrail s l d r).val |l| then 2 ^ 19 else 0)) % 2 ^ 32 := by
  rw [addToTrail_val]
  have hs : s.agility >>> 13 = s.agility / 2 ^ 13 := Nat.shiftRight_eq_div_pow _ _
  have hle : s.agility - s.agility / 2 ^ 13 < 2 ^ 32 :=
    lt_of_le_of_lt (Nat.sub_le _ _) h
  dsimp only [addToTrail]
  by_cases hov : s.oval |l| ≠ (if l < 0 then VState.FALSE else VState.TRUE)
  · rw [if_pos hov, if_pos hov, hs]
  · rw [if_neg hov, if_neg hov, hs, Nat.add_zero]
    exact (Nat.mod_eq_of_lt (hs ▸ hle)).symm

/-- Witness for C7 at a concrete state. -/
theorem addToTrail_agility_witness :
    (addToTrail (cnfInit 3 1) 2 1 clauseNil).agility =
      (((cnfInit 3 1).agility - (cnfInit 3 1).agility >>> 13) +
        (if (cnfInit 3 1).oval |(2 : Int)| ≠ (addToTrail (cnfInit 3 1) 2 1 clauseNil).val |(2 : Int)|
         then 2 ^ 19 else 0)) % 2 ^ 32 :=
  addToTrail_agility (cnfInit 3 1) 2 1 clauseNil (by decide)

/-- C5 (amended): `backjump` leaves the `lev` map entirely unchanged — a
variable it unassigns keeps the level at which it was last set — while
`lev(v) = -1` holds for every variable of a freshly constructed state. -/
theorem backjump_preserves_lev :
    (∀ s level, (backjump s level).lev = s.lev) ∧
    (∀ nv nc v, (cnfInit nv nc).lev v = -1) := by
  constructor
  · intro s level
    have key : ∀ n target s0, (bjGo n target s0).lev = s0.lev := by
      intro n
      induction n with
      | zero => intro target s0; rfl
      | succ k ih =>
          intro target s0
          unfold bjGo
          by_cases hf : s0.f ≤ target
          · simp [hf]
          · simp only [hf, if_false]
            rw [ih]
    unfold backjump
    simpa using key s.f (s.di (level + 1)) s
  · intro nv nc v; rfl

/-- C5 counterexample: after `backjump` to level 0 from `cexC5` (variable 3
decided at level 1), variable 3 is `UNSET` yet its `lev` is still 1, not
`-1` — the spec's "-1 when unset" invariant does not survive `backjump`. -/
theorem backjump_stale_lev_counterexample :
    (backjump cexC5 0).val 3 = VState.UNSET ∧ (backjump cexC5 0).lev 3 ≠ -1 := by
  constructor
  · decide
  · decide

/-- C6: the controller restarts exactly when the trail is fully propagated
(`f = g`), `f < nvars`, `agility / 2^32 < 0.25` (i.e. `agility < 2^30`),
and at least 1000 epochs passed since the last restart; the restart
backjumps to level 0, resets `d := 0`, records `last_restart := epoch`,
and goes straight back to C2 without deciding. -/
theorem restart_guard (ss : SState) (hf : ss.c.f ≤ ss.c.nvars) :
    ((∃ ss1, c5phase ss = C5Res.restart ss1) ↔
      (ss.c.f = ss.c.g ∧ ss.c.f < ss.c.nvars ∧ ss.c.agility < 2 ^ 30 ∧
        1000 ≤ ss.c.epoch - ss.lastRestart)) ∧
    (∀ ss1, c5phase ss = C5Res.restart ss1 →
      ss1.c = backjump ss.c 0 ∧ ss1.d = 0 ∧ ss1.lastRestart = ss.c.epoch ∧
      ∀ fuel fuelW fuelR, solveBody fuel fuelW fuelR ss = StepRes.again ss1) := by
  have hbody : ∀ ss1, c5phase ss = C5Res.restart ss1 →
      ∀ fuel fuelW fuelR, solveBody fuel fuelW fuelR ss = StepRes.again ss1 := by
    intro ss1 h fuel fuelW fuelR
    unfold solveBody
    rw [h]
  by_cases h1 : ss.c.f ≠ ss.c.g
  · have hres : c5phase ss = C5Res.go ss := by
      unfold c5phase; rw [if_pos h1]
    constructor
    · constructor
      · rintro ⟨ss1, h⟩
        rw [hres] at h
        exact C5Res.noConfusion h
      · rintro ⟨hg, -⟩
        exact absurd hg h1
    · intro ss1 h
      rw [hres] at h
      exact C5Res.noConfusion h
  · have hg : ss.c.f = ss.c.g := not_not.mp h1
    by_cases h2 : ss.c.f = ss.c.nvars
    · have hres : c5phase ss = C5Res.sat := by
        unfold c5phase; rw [if_neg h1, if_pos h2]
      constructor
      · constructor
        · rintro ⟨ss1, h⟩
          rw [hres] at h
          exact C5Res.noConfusion h
        · rintro ⟨-, hlt, -⟩
          omega
      · intro ss1 h
        rw [hres] at h
        exact C5Res.noConfusion h
    · by_cases h3 : ss.c.agility < 2 ^ 30 ∧ 1000 ≤ ss.c.epoch - ss.lastRestart
      · have hres : c5phase ss = C5Res.restart ⟨backjump ss.c 0, 0, ss.c.epoch, ss.lc⟩ := by
          unfold c5phase
          rw [if_neg h1, if_neg h2]
          simp only [purgeLemmas, ite_self]
          rw [if_pos h3]
        constructor
        · constructor
          · intro _
            exact ⟨hg, by omega, h3.1, h3.2⟩
          · intro _
            exact ⟨_, hres⟩
        · intro ss1 h
          rw [hres] at h
          injection h with h
          subst h
          exact ⟨rfl, rfl, rfl, hbody _ hres⟩
      · have hnor : ∀ ss1, c5phase ss ≠ C5Res.restart ss1 := by
          intro ss1 h
          unfold c5phase at h
          rw [if_neg h1, if_neg h2] at h
          simp only [purgeLemmas, ite_self] at h
          rw [if_neg h3] at h
          split at h
          · exact C5Res.noConfusion h
          · split at h
            · exact C5Res.noConfusion h
            · exact C5Res.noConfusion h
        constructor
        · constructor
          · rintro ⟨ss1, h⟩
            exact absurd h (hnor ss1)
          · rintro ⟨-, -, ha, he⟩
            exact absurd ⟨ha, he⟩ h3
        · intro ss1 h
          exact absurd h (hnor ss1)

/-- Witness for C6: the restart guard fires at `wC6` (trail propagated,
one unset variable, zero agility, 2000 epochs since the last restart). -/
theorem restart_guard_witness : ∃ ss1, c5phase wC6 = C5Res.restart ss1 :=
  (restart_guard wC6 (by decide)).1.mpr ⟨rfl, by decide, by decide, by decide⟩

/-- `findLiGo` only returns positions in `[2, j]` holding a literal of
level `≥ d`. -/
theorem findLiGo_spec (s : Cnf) (rc d : Int) :
    ∀ n j li, findLiGo s rc d n j = some li →
      2 ≤ li ∧ li ≤ j ∧ d ≤ s.lev |getI s.clauses (rc + li)| := by
  intro n
  induction n with
  | zero => intro j li h; exact Option.noConfusion h
  | succ k ih =>
      intro j li h
      unfold findLiGo at h
      by_cases hj : j < 2
      · rw [if_pos hj] at h; exact Option.noConfusion h
      · rw [if_neg hj] at h
        by_cases hl : s.lev |getI s.clauses (rc + j)| ≥ d
        · rw [if_pos hl] at h
          injection h with h
          subst h
          exact ⟨by omega, le_refl _, hl⟩
        · rw [if_neg hl] at h
          obtain ⟨h2, hle, hlev⟩ := ih (j - 1) li h
          exact ⟨h2, by omega, hlev⟩

/-- The five-write shrink of the on-the-fly subsumption (lines 660–665),
in isolation: starting from arena `cl`, watch map `w`, clause position
`rc` of size `len`, and a chosen position `li ∈ [2, len-1]`, the writes
leave the size decremented, `literal(rc,0)` replaced by the literal from
position `li`, a trailing tombstone, and the old watch head in `rc-2`. -/
theorem shrink_mechanics (cl : List Int) (w : Int → Int) (rc li len : Int)
    (hb0 : 4 ≤ rc) (hli2 : 2 ≤ li) (h3 : 2 < len)
    (hlendef : len = getI cl (rc - 1))
    (hlen : rc.toNat + len.toNat ≤ cl.length) :
    (let c1 := setI cl rc (getI cl (rc + li))
     let c2 := setI c1 (rc + li) (getI c1 (rc + len - 1))
     let c3 := setI c2 (rc + len - 1) litNil
     let c4 := setI c3 (rc - 1) (getI c3 (rc - 1) - 1)
     let cf := setI c4 (rc - 2) (w (getI c4 rc))
     getI cf (rc - 1) = len - 1 ∧
     getI cf rc = getI cl (rc + li) ∧
     getI cf (rc + len - 1) = litNil ∧
     getI c4 rc = getI cl (rc + li) ∧
     getI cf (rc - 2) = w (getI cl (rc + li))) := by
  have hlength : ∀ a i v, (setI a i v).length = a.length := setI_length
  have hclen : (rc - 1).toNat < cl.length := by omega
  have hclen0 : rc.toNat < cl.length := by omega
  have hclen2 : (rc - 2).toNat < cl.length := by omega
  have hclenL : (rc + len - 1).toNat < cl.length := by omega
  dsimp only
  have e4rc : getI (setI (setI (setI (setI cl rc (getI cl (rc + li))) (rc + li)
      (getI (setI cl rc (getI cl (rc + li))) (rc + len - 1))) (rc + len - 1) litNil)
      (rc - 1) (getI (setI (setI (setI cl rc (getI cl (rc + li))) (rc + li)
      (getI (setI cl rc (getI cl (rc + li))) (rc + len - 1))) (rc + len - 1) litNil)
      (rc - 1) - 1)) rc = getI cl (rc + li) := by
    rw [getI_setI_ne _ _ _ _ (by omega), getI_setI_ne _ _ _ _ (by omega),
      getI_setI_ne _ _ _ _ (by omega), getI_setI_eq _ _ _ (by omega) (by omega)]
  refine ⟨?_, ?_, ?_, e4rc, ?_⟩
  · rw [getI_setI_ne _ _ _ _ (by omega),
      getI_setI_eq _ _ _ (by omega) (by simp only [hlength]; omega),
      getI_setI_ne _ _ _ _ (by omega), getI_setI_ne _ _ _ _ (by omega),
      getI_setI_ne _ _ _ _ (by omega), ← hlendef]
  · rw [getI_setI_ne _ _ _ _ (by omega)]
    exact e4rc
  · rw [getI_setI_ne _ _ _ _ (by omega), getI_setI_ne _ _ _ _ (by omega),
      getI_setI_eq _ _ _ (by omega) (by simp only [hlength]; omega)]
  · rw [getI_setI_eq _ _ _ (by omega) (by simp only [hlength]; omega), e4rc]

theorem getI_oob (a : List Int) (i : Int) (h : a.length ≤ i.toNat) : getI a i = 0 := by
  unfold getI
  split
  · exact List.getD_eq_default _ _ h
  · rfl

theorem getI_concat_pred (a : List Int) (x : Int) :
    getI (a ++ [x]) (((a ++ [x]).length : Int) - 1) = x := by
  unfold getI
  have hlen : (a ++ [x]).length = a.length + 1 := by simp
  rw [if_pos (by omega)]
  have ht : ((((a ++ [x]).length : Nat) : Int) - 1).toNat = a.length := by omega
  rw [ht, List.getD_eq_getElem _ _ (by simp)]
  exact List.getElem_concat_length a x _ rfl (by simp)

theorem aGet_ok {α : Type} (a : List α) (k : Int) (d : α) (h0 : 0 ≤ k)
    (h1 : k.toNat < a.length) : aGet a k = Except.ok (a.getD k.toNat d) := by
  unfold aGet
  rw [dif_pos (And.intro h0 h1)]
  rw [List.getD_eq_getElem _ _ h1]
  rfl

theorem aSet_ok {α : Type} (a : List α) (k : Int) (v : α) (h0 : 0 ≤ k)
    (h1 : k.toNat < a.length) : aSet a k v = Except.ok (a.set k.toNat v) := by
  unfold aSet
  rw [if_pos (And.intro h0 h1)]

theorem wGet_ok (s : PCnf) (l : Int) (hw : s.watchStorage.length = 2 * s.nvars + 1)
    (hb : |l| ≤ (s.nvars : Int)) :
    wGet s l = Except.ok (s.watchStorage.getD ((s.nvars : Int) + l).toNat 0) := by
  obtain ⟨hb1, hb2⟩ := abs_le.mp hb
  exact aGet_ok _ _ _ (by omega) (by omega)

theorem wSet_ok (s : PCnf) (l v : Int) (hw : s.watchStorage.length = 2 * s.nvars + 1)
    (hb : |l| ≤ (s.nvars : Int)) :
    wSet s l v =
      Except.ok { s with watchStorage := s.watchStorage.set ((s.nvars : Int) + l).toNat v } := by
  obtain ⟨hb1, hb2⟩ := abs_le.mp hb
  unfold wSet
  rw [aSet_ok _ _ _ (by omega) (by omega)]
  rfl

theorem getI_concat (a : List Int) (x : Int) : getI (a ++ [x]) ((a.length : Int)) = x := by
  unfold getI
  rw [if_pos (by omega)]
  have ht : ((a.length : Int)).toNat = a.length := by omega
  rw [ht, List.getD_eq_getElem _ _ (by simp)]
  exact List.getElem_concat_length a x _ rfl (by simp)

theorem updN_self {β : Type} (m : Nat → β) (k : Nat) (v : β) : updN m k v k = v := by
  simp [updN]

theorem getD_set_self {α : Type} (a : List α) (i : Nat) (v d : α) (h : i < a.length) :
    (a.set i v).getD i d = v := by
  rw [List.getD_eq_getElem _ _ (by simpa using h)]
  simp [List.getElem_set]

/-- `readLits` only changes `clauses`. -/
theorem readLits_fields : ∀ (toks : List Int) (s : PCnf) (n : Nat),
    (readLits s toks n).1.val = s.val ∧ (readLits s toks n).1.lev = s.lev ∧
    (readLits s toks n).1.tloc = s.tloc ∧ (readLits s toks n).1.trail = s.trail ∧
    (readLits s toks n).1.f = s.f ∧ (readLits s toks n).1.nvars = s.nvars ∧
    (readLits s toks n).1.watchStorage = s.watchStorage := by
  intro toks
  induction toks with
  | nil => intro s n; exact ⟨rfl, rfl, rfl, rfl, rfl, rfl, rfl⟩
  | cons t rest ih =>
      intro s n
      unfold readLits
      by_cases ht : t = 0
      · rw [if_pos ht]; exact ⟨rfl, rfl, rfl, rfl, rfl, rfl, rfl⟩
      · rw [if_neg ht]; exact ih _ _

/-- `readLits` appends exactly the nonzero tokens it consumed; the leftover
tokens are a subset of the input. -/
theorem readLits_clauses : ∀ (toks : List Int) (s : PCnf) (n : Nat),
    ∃ pushed, (readLits s toks n).1.clauses = s.clauses ++ pushed ∧
      (readLits s toks n).2.1 = n + pushed.length ∧
      (∀ t ∈ pushed, t ∈ toks ∧ t ≠ 0) ∧
      (∀ t ∈ (readLits s toks n).2.2.1, t ∈ toks) := by
  intro toks
  induction toks with
  | nil =>
      intro s n
      exact ⟨[], by simp [readLits], by simp [readLits], by simp, by simp [readLits]⟩
  | cons t rest ih =>
      intro s n
      by_cases ht : t = 0
      · refine ⟨[], ?_, ?_, by simp, ?_⟩
        · unfold readLits; rw [if_pos ht]; simp
        · unfold readLits; rw [if_pos ht]; simp
        · unfold readLits; rw [if_pos ht]
          intro u hu
          exact List.mem_cons_of_mem _ hu
      · obtain ⟨pushed, h1, h2, h3, h4⟩ := ih { s with clauses := s.clauses ++ [t] } (n + 1)
        refine ⟨t :: pushed, ?_, ?_, ?_, ?_⟩
        · unfold readLits; rw [if_neg ht]
          rw [h1]; simp
        · unfold readLits; rw [if_neg ht]
          rw [h2]; simp; omega
        · intro u hu
          rcases List.mem_cons.mp hu with h | h
          · subst h; exact ⟨List.mem_cons_self _ _, ht⟩
          · exact ⟨List.mem_cons_of_mem _ (h3 u h).1, (h3 u h).2⟩
        · intro u hu
          unfold readLits at hu; rw [if_neg ht] at hu
          exact List.mem_cons_of_mem _ (h4 u hu)

/-- A successful `unitAssign` leaves `clauses`, `watch_storage` and
`nvars` unchanged. -/
theorem unitAssign_ok_fields (s : PCnf) (x : Int) (s' : PCnf)
    (h : unitAssign s x = Except.ok s') :
    s'.clauses = s.clauses ∧ s'.watchStorage = s.watchStorage ∧ s'.nvars = s.nvars := by
  unfold unitAssign at h
  cases h1 : aGet s.val |x| with
  | error e => rw [h1] at h; simp [Bind.bind, Except.bind] at h
  | ok cur =>
      rw [h1] at h
      simp only [Bind.bind, Except.bind] at h
      by_cases hc : cur ≠ VState.UNSET ∧ cur ≠ (if x < 0 then VState.FALSE else VState.TRUE)
      · rw [if_pos hc] at h
        exact absurd h (by simp)
      · rw [if_neg hc] at h
        cases h2 : aSet s.val |x| (if x < 0 then VState.FALSE else VState.TRUE) with
        | error e => rw [h2] at h; dsimp only at h; exact absurd h (by simp)
        | ok v1 =>
            rw [h2] at h
            dsimp only at h
            cases h3 : aSet s.tloc |x| (Int.ofNat s.f) with
            | error e => rw [h3] at h; dsimp only at h; exact absurd h (by simp)
            | ok t1 =>
                rw [h3] at h
                dsimp only at h
                cases h4 : aSet s.lev |x| 0 with
                | error e => rw [h4] at h; dsimp only at h; exact absurd h (by simp)
                | ok l1 =>
                    rw [h4] at h
                    dsimp only at h
                    injection h with h
                    subst h
                    exact ⟨rfl, rfl, rfl⟩

/-- A successful `wSet` changes only `watch_storage`. -/
theorem wSet_ok_fields (s : PCnf) (l v : Int) (s' : PCnf)
    (h : wSet s l v = Except.ok s') :
    s'.clauses = s.clauses ∧ s'.val = s.val ∧ s'.lev = s.lev ∧ s'.tloc = s.tloc ∧
    s'.trail = s.trail ∧ s'.f = s.f ∧ s'.nvars = s.nvars := by
  unfold wSet at h
  cases h1 : aSet s.watchStorage ((s.nvars : Int) + l) v with
  | error e => rw [h1] at h; simp [Bind.bind, Except.bind] at h
  | ok st =>
      rw [h1] at h
      simp only [Bind.bind, Except.bind] at h
      injection h with h
      subst h
      exact ⟨rfl, rfl, rfl, rfl, rfl, rfl, rfl⟩

/-- A successful `watchInstall` does not touch the LBD header slot
`start-4`, nor `val`, `lev`, `tloc`, `trail`, `f`. -/
theorem watchInstall_ok_fields (s : PCnf) (start cs : Nat) (s' : PCnf)
    (h : watchInstall s start cs = Except.ok s') :
    getI s'.clauses ((start : Int) - 4) = getI s.clauses ((start : Int) - 4) ∧
    s'.val = s.val ∧ s'.lev = s.lev ∧ s'.tloc = s.tloc ∧ s'.trail = s.trail ∧
    s'.f = s.f := by
  unfold watchInstall at h
  simp only [Bind.bind, Except.bind] at h
  cases h1 : wGet { s with clauses := setI s.clauses ((start : Int) - 1) (cs : Int) }
      (getI (setI s.clauses ((start : Int) - 1) (cs : Int)) (start : Int)) with
  | error e => rw [h1] at h; simp at h
  | ok w0 =>
      rw [h1] at h
      dsimp only at h
      cases h2 : wSet { s with clauses := (setI (setI s.clauses ((start : Int) - 1) (cs : Int))
            ((start : Int) - 2) w0) }
          (getI (setI s.clauses ((start : Int) - 1) (cs : Int)) (start : Int)) (start : Int) with
      | error e => rw [h2] at h; simp at h
      | ok s2 =>
          rw [h2] at h
          dsimp only at h
          obtain ⟨e2c, e2v, e2l, e2t, e2r, e2f, e2n⟩ := wSet_ok_fields _ _ _ _ h2
          have e2lbd : getI s2.clauses ((start : Int) - 4) = getI s.clauses ((start : Int) - 4) := by
            rw [e2c, getI_setI_ne _ _ _ _ (by omega), getI_setI_ne _ _ _ _ (by omega)]
          split at h
          · cases h3 : wGet s2 (getI s2.clauses ((start : Int) + 1)) with
            | error e => rw [h3] at h; simp at h
            | ok w1 =>
                rw [h3] at h
                dsimp only at h
                obtain ⟨e4c, e4v, e4l, e4t, e4r, e4f, e4n⟩ := wSet_ok_fields _ _ _ _ h
                refine ⟨?_, by rw [e4v, e2v], by rw [e4l, e2l], by rw [e4t, e2t],
                  by rw [e4r, e2r], by rw [e4f, e2f]⟩
                rw [e4c]
                dsimp only
                rw [getI_setI_ne _ _ _ _ (by omega), e2lbd]
          · injection h with h
            subst h
            exact ⟨e2lbd, e2v, e2l, e2t, e2r, e2f⟩

/-- The unit-clause handling of `parse`: either the new unit contradicts an
earlier one and the parser exits UNSATISFIABLE, or the variable is
assigned: `val := sign(x)`, `tloc := f`, `trail[f] := x`, `f := f + 1`,
`lev := 0`. -/
theorem unitAssign_spec (s : PCnf) (x : Int)
    (hval : s.val.length = s.nvars + 1) (htloc : s.tloc.length = s.nvars + 1)
    (hlev : s.lev.length = s.nvars + 1) (hb : |x| ≤ (s.nvars : Int)) :
    (let sv := if x < 0 then VState.FALSE else VState.TRUE
     let cur := s.val.getD |x|.toNat VState.UNSET
     if cur ≠ VState.UNSET ∧ cur ≠ sv then unitAssign s x = Except.error PErr.unsat
     else unitAssign s x = Except.ok { s with
        val := s.val.set |x|.toNat sv
        tloc := s.tloc.set |x|.toNat (Int.ofNat s.f)
        trail := updN s.trail s.f x
        f := s.f + 1
        lev := s.lev.set |x|.toNat 0 }) := by
  have h0 : 0 ≤ |x| := abs_nonneg x
  dsimp only
  dsimp only [unitAssign]
  rw [aGet_ok s.val |x| VState.UNSET h0 (by omega)]
  simp only [Bind.bind, Except.bind]
  by_cases hcase : s.val.getD |x|.toNat VState.UNSET ≠ VState.UNSET ∧
      s.val.getD |x|.toNat VState.UNSET ≠ (if x < 0 then VState.FALSE else VState.TRUE)
  · rw [if_pos hcase, if_pos hcase]
  · rw [if_neg hcase, if_neg hcase]
    rw [aSet_ok s.val |x| _ h0 (by omega)]
    simp only [Bind.bind, Except.bind]
    rw [aSet_ok s.tloc |x| _ h0 (by omega)]
    simp only [Bind.bind, Except.bind]
    rw [aSet_ok s.lev |x| _ h0 (by omega)]

/-- The watch-list installation of `parse` succeeds under the literal
bounds and touches only `clauses` (at offsets `start-1`, `start-2`,
`start-3`) and `watch_storage`. -/
theorem watchInstall_spec (s : PCnf) (start cs : Nat)
    (hw : s.watchStorage.length = 2 * s.nvars + 1)
    (hl0 : |getI s.clauses (start : Int)| ≤ (s.nvars : Int))
    (hl1 : cs > 1 → |getI s.clauses ((start : Int) + 1)| ≤ (s.nvars : Int)) :
    ∃ s', watchInstall s start cs = Except.ok s' ∧
      s'.val = s.val ∧ s'.lev = s.lev ∧ s'.tloc = s.tloc ∧ s'.trail = s.trail ∧
      s'.f = s.f ∧ s'.nvars = s.nvars ∧
      getI s'.clauses ((start : Int) - 4) = getI s.clauses ((start : Int) - 4) ∧
      s'.clauses.length = s.clauses.length := by
  dsimp only [watchInstall]
  rw [getI_setI_ne s.clauses ((start : Int) - 1) (start : Int) (cs : Int) (by omega)]
  rw [show wGet { s with clauses := setI s.clauses ((start : Int) - 1) (cs : Int) }
        (getI s.clauses (start : Int)) =
      Except.ok (s.watchStorage.getD ((s.nvars : Int) + getI s.clauses (start : Int)).toNat 0)
    from wGet_ok _ _ hw hl0]
  simp only [Bind.bind, Except.bind]
  rw [show wSet { s with clauses := (setI (setI s.clauses ((start : Int) - 1) (cs : Int))
          ((start : Int) - 2)
          (s.watchStorage.getD ((s.nvars : Int) + getI s.clauses (start : Int)).toNat 0)) }
        (getI s.clauses (start : Int)) (start : Int) =
      Except.ok { s with
        clauses := (setI (setI s.clauses ((start : Int) - 1) (cs : Int)) ((start : Int) - 2)
          (s.watchStorage.getD ((s.nvars : Int) + getI s.clauses (start : Int)).toNat 0))
        watchStorage :=
          (s.watchStorage.set ((s.nvars : Int) + getI s.clauses (start : Int)).toNat (start : Int)) }
    from wSet_ok _ _ _ hw hl0]
  simp only [Bind.bind, Except.bind]
  by_cases hcs : cs > 1
  · rw [if_pos hcs]
    rw [getI_setI_ne (setI s.clauses ((start : Int) - 1) (cs : Int)) ((start : Int) - 2)
      ((start : Int) + 1) _ (by omega)]
    rw [getI_setI_ne s.clauses ((start : Int) - 1) ((start : Int) + 1) (cs : Int) (by omega)]
    rw [show wGet { s with
          clauses := (setI (setI s.clauses ((start : Int) - 1) (cs : Int)) ((start : Int) - 2)
            (s.watchStorage.getD ((s.nvars : Int) + getI s.clauses (start : Int)).toNat 0))
          watchStorage :=
            (s.watchStorage.set ((s.nvars : Int) + getI s.clauses (start : Int)).toNat (start : Int)) }
        (getI s.clauses ((start : Int) + 1)) =
      Except.ok ((s.watchStorage.set ((s.nvars : Int) + getI s.clauses (start : Int)).toNat
          (start : Int)).getD ((s.nvars : Int) + getI s.clauses ((start : Int) + 1)).toNat 0)
      from wGet_ok _ _ (by simp only [List.length_set]; exact hw) (hl1 hcs)]
    simp only [Bind.bind, Except.bind]
    rw [show wSet { s with
          clauses := (setI (setI (setI s.clauses ((start : Int) - 1) (cs : Int)) ((start : Int) - 2)
            (s.watchStorage.getD ((s.nvars : Int) + getI s.clauses (start : Int)).toNat 0))
            ((start : Int) - 3)
            ((s.watchStorage.set ((s.nvars : Int) + getI s.clauses (start : Int)).toNat
              (start : Int)).getD ((s.nvars : Int) + getI s.clauses ((start : Int) + 1)).toNat 0))
          watchStorage :=
            (s.watchStorage.set ((s.nvars : Int) + getI s.clauses (start : Int)).toNat (start : Int)) }
        (getI s.clauses ((start : Int) + 1)) (start : Int) =
      Except.ok { s with
          clauses := (setI (setI (setI s.clauses ((start : Int) - 1) (cs : Int)) ((start : Int) - 2)
            (s.watchStorage.getD ((s.nvars : Int) + getI s.clauses (start : Int)).toNat 0))
            ((start : Int) - 3)
            ((s.watchStorage.set ((s.nvars : Int) + getI s.clauses (start : Int)).toNat
              (start : Int)).getD ((s.nvars : Int) + getI s.clauses ((start : Int) + 1)).toNat 0))
          watchStorage :=
            ((s.watchStorage.set ((s.nvars : Int) + getI s.clauses (start : Int)).toNat
              (start : Int)).set ((s.nvars : Int) + getI s.clauses ((start : Int) + 1)).toNat
              (start : Int)) }
      from wSet_ok _ _ _ (by simp only [List.length_set]; exact hw) (hl1 hcs)]
    refine ⟨_, rfl, rfl, rfl, rfl, rfl, rfl, rfl, ?_, ?_⟩
    · rw [getI_setI_ne _ _ _ _ (by omega), getI_setI_ne _ _ _ _ (by omega),
        getI_setI_ne _ _ _ _ (by omega)]
    · simp only [setI_length]
  · rw [if_neg hcs]
    refine ⟨_, rfl, rfl, rfl, rfl, rfl, rfl, rfl, ?_, ?_⟩
    · rw [getI_setI_ne _ _ _ _ (by omega), getI_setI_ne _ _ _ _ (by omega)]
    · simp only [setI_length]

theorem getI_append_head (a : List Int) (c : Int) (t : List Int) :
    getI (a ++ c :: t) ((a.length : Int)) = c := by
  unfold getI
  rw [if_pos (by omega)]
  have ht : ((a.length : Nat) : Int).toNat = a.length := by omega
  rw [ht, List.getD_eq_getElem _ _ (by simp)]
  rw [List.getElem_append_right (le_refl a.length)]
  simp

theorem dropLast4_append (a : List Int) (p q u v : Int) :
    (a ++ [p, q, u, v]).dropLast.dropLast.dropLast.dropLast = a := by
  have h1 : a ++ [p, q, u, v] = (a ++ [p, q, u]) ++ [v] := by simp
  have h2 : a ++ [p, q, u] = (a ++ [p, q]) ++ [u] := by simp
  have h3 : a ++ [p, q] = (a ++ [p]) ++ [q] := by simp
  rw [h1, List.dropLast_concat, h2, List.dropLast_concat, h3, List.dropLast_concat,
    List.dropLast_concat]

/-- The LBD count of lines 747–748 starts at its accumulator and never
decreases. -/
theorem lbdCount_ge (s : Cnf) : ∀ (n : Nat) (j acc : Int), acc ≤ lbdCount s n j acc := by
  intro n
  induction n with
  | zero => intro j acc; exact le_refl _
  | succ k ih =>
      intro j acc
      unfold lbdCount
      refine le_trans ?_ (ih (j + 1) _)
      split
      · omega
      · omega

/-- The learned-clause installation loop never shrinks the arena. -/
theorem learnLoop_len (lc dp : Int) : ∀ (n j : Nat) (fw : Bool) (s : Cnf),
    s.clauses.length ≤ ((learnLoop lc dp n j fw s).1).clauses.length := by
  intro n
  induction n with
  | zero => intro j fw s; exact le_refl _
  | succ k ih =>
      intro j fw s
      unfold learnLoop
      dsimp only
      split
      · exact le_trans (by simp) (ih (j + 1) fw _)
      · exact le_trans (le_of_eq (by simp [setI_length])) (ih (j + 1) true _)

/-- A successful C9 learn step stores an LBD `≥ 1` in the new clause's
header slot `lc - 4`. -/
theorem learnStep_ok_lbd (s : Cnf) (lp d dp r : Int) (out : Cnf) (lc : Int)
    (h : learnStep s lp d dp r = MRes.ok (out, lc)) :
    1 ≤ getI out.clauses (lc - 4) := by
  simp only [learnStep] at h
  split at h
  · exact absurd h (by simp)
  · injection h with h
    rw [Prod.mk.injEq] at h
    obtain ⟨h1, h2⟩ := h
    subst h1
    subst h2
    dsimp only [addToTrail]
    have hlen : ((s.clauses ++ [0, clauseNil, s.watch (-lp), r + 1]).length : Int) - 4 =
        (s.clauses.length : Int) := by
      simp only [List.length_append, List.length_cons, List.length_nil]
      omega
    rw [hlen]
    have hb := learnLoop_len ((s.clauses ++ [0, clauseNil, s.watch (-lp), r + 1]).length : Int)
      dp r.toNat 0 false
      { s with
          clauses := ((s.clauses ++ [0, clauseNil, s.watch (-lp), r + 1]) ++ [-lp]) ++ [clauseNil]
          watch := upd s.watch (-lp)
            ((s.clauses ++ [0, clauseNil, s.watch (-lp), r + 1]).length : Int)
          lbds := upd s.lbds (s.lev |lp|) s.epoch }
    rw [getI_setI_eq _ _ _ (by omega) (by simp at hb ⊢; omega)]
    exact lbdCount_ge _ _ _ _

/-- A successful parse clause step leaves `0` in the new header's LBD slot
(index `start - 4`, i.e. the arena length before the step). -/
theorem parseClauseStep_ok_lbd (s : PCnf) (tokens : List Int)
    (o : PCnf × List Int × Bool × Bool)
    (h : parseClauseStep s tokens = Except.ok o) :
    getI o.1.clauses ((s.clauses.length : Int)) = 0 := by
  unfold parseClauseStep at h
  simp only [Bind.bind, Except.bind] at h
  obtain ⟨pushed, hcl, hcs, hmem, hrest⟩ :=
    readLits_clauses tokens { s with clauses := s.clauses ++ [0, litNil, litNil, litNil] } 0
  rcases hro : readLits { s with clauses := s.clauses ++ [0, litNil, litNil, litNil] }
      tokens 0 with ⟨s1, cs1, rest1, eof1⟩
  rw [hro] at hcl hcs h
  dsimp only at hcl hcs h
  by_cases hA : cs1 = 0 ∧ ¬eof1 = true
  · rw [if_pos hA] at h
    exact absurd h (by simp)
  · rw [if_neg hA] at h
    by_cases hB : cs1 = 0 ∧ eof1 = true
    · rw [if_pos hB] at h
      rw [if_pos hB.1] at h
      injection h with h
      subst h
      dsimp only
      have hp0 : pushed = [] := by
        rw [hB.1] at hcs
        cases pushed with
        | nil => rfl
        | cons a t => simp at hcs
      rw [hcl, hp0, List.append_nil, dropLast4_append]
      exact getI_oob _ _ (by omega)
    · rw [if_neg hB] at h
      have hcs0 : cs1 ≠ 0 := by
        intro h0
        rcases Bool.eq_false_or_eq_true eof1 with he | he
        · exact hB ⟨h0, he⟩
        · exact hA ⟨h0, by simp [he]⟩
      by_cases hC : cs1 = 1
      · rw [if_pos hC] at h
        cases hu : unitAssign s1 (getI s1.clauses ((s1.clauses.length : Int) - 1)) with
        | error e => rw [hu] at h; simp [Except.bind] at h
        | ok u =>
            rw [hu] at h
            dsimp only at h
            rw [if_neg hcs0] at h
            cases hwi : watchInstall u
                ({ s with clauses := s.clauses ++ [0, litNil, litNil, litNil] }).clauses.length
                cs1 with
            | error e => rw [hwi] at h; simp [Except.bind] at h
            | ok s3 =>
                rw [hwi] at h
                simp only [Except.bind] at h
                injection h with h
                subst h
                dsimp only
                obtain ⟨hlbd, -, -, -, -, -⟩ := watchInstall_ok_fields _ _ _ _ hwi
                dsimp only at hlbd
                rw [show ((s.clauses ++ [0, litNil, litNil, litNil]).length : Int) - 4 =
                    (s.clauses.length : Int) from by
                  simp only [List.length_append, List.length_cons, List.length_nil]; omega] at hlbd
                rw [hlbd]
                obtain ⟨huc, -, -⟩ := unitAssign_ok_fields _ _ _ hu
                rw [huc, hcl, List.append_assoc]
                exact getI_append_head _ 0 _
      · rw [if_neg hC] at h
        rw [if_neg hcs0] at h
        cases hwi : watchInstall s1
            ({ s with clauses := s.clauses ++ [0, litNil, litNil, litNil] }).clauses.length
            cs1 with
        | error e => rw [hwi] at h; simp [Except.bind] at h
        | ok s3 =>
            rw [hwi] at h
            simp only [Except.bind] at h
            injection h with h
            subst h
            dsimp only
            obtain ⟨hlbd, -, -, -, -, -⟩ := watchInstall_ok_fields _ _ _ _ hwi
            dsimp only at hlbd
            rw [show ((s.clauses ++ [0, litNil, litNil, litNil]).length : Int) - 4 =
                (s.clauses.length : Int) from by
              simp only [List.length_append, List.length_cons, List.length_nil]; omega] at hlbd
            rw [hlbd, hcl, List.append_assoc]
            exact getI_append_head _ 0 _

/-- C9: every clause learned at step C9 carries an LBD `≥ 1` in its header
slot `lc - 4`; the LBD value `0` — which marks a permanent clause — is
exactly what parsing writes into every original clause's header, and the
learn step (the only code that stores into an LBD slot during the search)
never writes it. -/
theorem learned_lbd_positive :
    (∀ (s : Cnf) (lp d dp r : Int), mresIsOk (learnStep s lp d dp r) = true →
      1 ≤ getI (mresGetD (s, 0) (learnStep s lp d dp r)).1.clauses
        ((mresGetD (s, 0) (learnStep s lp d dp r)).2 - 4)) ∧
    (∀ (s : PCnf) (tokens : List Int), excIsOk (parseClauseStep s tokens) = true →
      getI (excGetD (s, [], true, true) (parseClauseStep s tokens)).1.clauses
        ((s.clauses.length : Int)) = 0) := by
  constructor
  · intro s lp d dp r h
    cases hres : learnStep s lp d dp r with
    | ok a =>
        exact learnStep_ok_lbd s lp d dp r a.1 a.2 (by rw [hres])
    | crash => rw [hres] at h; simp [mresIsOk] at h
    | fuel => rw [hres] at h; simp [mresIsOk] at h
  · intro s tokens h
    cases hres : parseClauseStep s tokens with
    | error e => rw [hres] at h; simp [excIsOk] at h
    | ok o => exact parseClauseStep_ok_lbd s tokens o hres

/-- Witness for C9: a concrete learned clause gets LBD `≥ 1` and a
concretely parsed clause gets LBD `0`. -/
theorem learned_lbd_positive_witness :
    1 ≤ getI (mresGetD (cnfInit 2 1, 0) (learnStep (cnfInit 2 1) 2 0 0 0)).1.clauses
        ((mresGetD (cnfInit 2 1, 0) (learnStep (cnfInit 2 1) 2 0 0 0)).2 - 4) ∧
    getI (excGetD (pInit 2 1, [], true, true) (parseClauseStep (pInit 2 1) [1, 2, 0])).1.clauses
        (((pInit 2 1).clauses.length : Int)) = 0 :=
  ⟨learned_lbd_positive.1 (cnfInit 2 1) 2 0 0 0 (by decide),
   learned_lbd_positive.2 (pInit 2 1) [1, 2, 0] (by decide)⟩

theorem getI_append_head1 (a : List Int) (c0 c1 : Int) (t : List Int) :
    getI (a ++ c0 :: c1 :: t) ((a.length : Int) + 1) = c1 := by
  unfold getI
  rw [if_pos (by omega)]
  have ht : (((a.length : Nat) : Int) + 1).toNat = a.length + 1 := by omega
  rw [ht, List.getD_eq_getElem _ _ (by simp)]
  rw [List.getElem_append_right (by omega)]
  simp

theorem aSet_ok_length {α : Type} (a : List α) (k : Int) (v : α) (b : List α)
    (h : aSet a k v = Except.ok b) : b.length = a.length := by
  unfold aSet at h
  split at h
  · injection h with h; subst h; simp
  · exact absurd h (by simp)

/-- `readLits` also leaves `oval`, `stamp`, `lstamp`, `reason` alone. -/
theorem readLits_fields2 : ∀ (toks : List Int) (s : PCnf) (n : Nat),
    (readLits s toks n).1.oval = s.oval ∧ (readLits s toks n).1.stamp = s.stamp ∧
    (readLits s toks n).1.lstamp = s.lstamp ∧ (readLits s toks n).1.reason = s.reason := by
  intro toks
  induction toks with
  | nil => intro s n; exact ⟨rfl, rfl, rfl, rfl⟩
  | cons t rest ih =>
      intro s n
      unfold readLits
      by_cases ht : t = 0
      · rw [if_pos ht]; exact ⟨rfl, rfl, rfl, rfl⟩
      · rw [if_neg ht]; exact ih _ _

/-- A successful `unitAssign` preserves all per-variable array lengths. -/
theorem unitAssign_ok_arrays (s : PCnf) (x : Int) (s' : PCnf)
    (h : unitAssign s x = Except.ok s') :
    s'.val.length = s.val.length ∧ s'.lev.length = s.lev.length ∧
    s'.tloc.length = s.tloc.length ∧ s'.oval = s.oval ∧ s'.stamp = s.stamp ∧
    s'.lstamp = s.lstamp ∧ s'.reason = s.reason := by
  unfold unitAssign at h
  cases h1 : aGet s.val |x| with
  | error e => rw [h1] at h; simp [Bind.bind, Except.bind] at h
  | ok cur =>
      rw [h1] at h
      simp only [Bind.bind, Except.bind] at h
      by_cases hc : cur ≠ VState.UNSET ∧ cur ≠ (if x < 0 then VState.FALSE else VState.TRUE)
      · rw [if_pos hc] at h; exact absurd h (by simp)
      · rw [if_neg hc] at h
        cases h2 : aSet s.val |x| (if x < 0 then VState.FALSE else VState.TRUE) with
        | error e => rw [h2] at h; dsimp only at h; exact absurd h (by simp)
        | ok v1 =>
            rw [h2] at h
            dsimp only at h
            cases h3 : aSet s.tloc |x| (Int.ofNat s.f) with
            | error e => rw [h3] at h; dsimp only at h; exact absurd h (by simp)
            | ok t1 =>
                rw [h3] at h
                dsimp only at h
                cases h4 : aSet s.lev |x| 0 with
                | error e => rw [h4] at h; dsimp only at h; exact absurd h (by simp)
                | ok l1 =>
                    rw [h4] at h
                    dsimp only at h
                    injection h with h
                    subst h
                    exact ⟨aSet_ok_length _ _ _ _ h2, aSet_ok_length _ _ _ _ h4,
                      aSet_ok_length _ _ _ _ h3, rfl, rfl, rfl, rfl⟩

/-- A successful `wSet` preserves the storage length and the other
per-variable arrays. -/
theorem wSet_ok_storage (s : PCnf) (l v : Int) (s' : PCnf)
    (h : wSet s l v = Except.ok s') :
    s'.watchStorage.length = s.watchStorage.length ∧ s'.oval = s.oval ∧
    s'.stamp = s.stamp ∧ s'.lstamp = s.lstamp ∧ s'.reason = s.reason := by
  unfold wSet at h
  cases h1 : aSet s.watchStorage ((s.nvars : Int) + l) v with
  | error e => rw [h1] at h; simp [Bind.bind, Except.bind] at h
  | ok st =>
      rw [h1] at h
      simp only [Bind.bind, Except.bind] at h
      injection h with h
      subst h
      exact ⟨aSet_ok_length _ _ _ _ h1, rfl, rfl, rfl, rfl⟩

/-- A successful `watchInstall` preserves the storage length and the other
per-variable arrays. -/
theorem watchInstall_ok_storage (s : PCnf) (start cs : Nat) (s' : PCnf)
    (h : watchInstall s start cs = Except.ok s') :
    s'.watchStorage.length = s.watchStorage.length ∧ s'.oval = s.oval ∧
    s'.stamp = s.stamp ∧ s'.lstamp = s.lstamp ∧ s'.reason = s.reason := by
  unfold watchInstall at h
  simp only [Bind.bind, Except.bind] at h
  cases h1 : wGet { s with clauses := setI s.clauses ((start : Int) - 1) (cs : Int) }
      (getI (setI s.clauses ((start : Int) - 1) (cs : Int)) (start : Int)) with
  | error e => rw [h1] at h; simp at h
  | ok w0 =>
      rw [h1] at h
      dsimp only at h
      cases h2 : wSet { s with clauses := (setI (setI s.clauses ((start : Int) - 1) (cs : Int))
            ((start : Int) - 2) w0) }
          (getI (setI s.clauses ((start : Int) - 1) (cs : Int)) (start : Int)) (start : Int) with
      | error e => rw [h2] at h; simp at h
      | ok s2 =>
          rw [h2] at h
          dsimp only at h
          obtain ⟨e2w, e2o, e2s, e2l, e2r⟩ := wSet_ok_storage _ _ _ _ h2
          split at h
          · cases h3 : wGet s2 (getI s2.clauses ((start : Int) + 1)) with
            | error e => rw [h3] at h; simp at h
            | ok w1 =>
                rw [h3] at h
                dsimp only at h
                obtain ⟨e4w, e4o, e4s, e4l, e4r⟩ := wSet_ok_storage _ _ _ _ h
                refine ⟨?_, ?_, ?_, ?_, ?_⟩
                · rw [e4w]; exact e2w
                · rw [e4o]; exact e2o
                · rw [e4s]; exact e2s
                · rw [e4l]; exact e2l
                · rw [e4r]; exact e2r
          · injection h with h
            subst h
            exact ⟨e2w, e2o, e2s, e2l, e2r⟩

/-- Under the literal-bounds precondition, one parse clause step never
makes an out-of-bounds access, and a successful step preserves the array
sizes and hands back leftover tokens drawn from the input. -/
theorem parseClauseStep_no_oob (s : PCnf) (tokens : List Int)
    (htok : ∀ t ∈ tokens, t ≠ 0 → |t| ≤ (s.nvars : Int))
    (hwf : pWfP s) :
    parseClauseStep s tokens ≠ Except.error PErr.oob ∧
    (∀ o, parseClauseStep s tokens = Except.ok o →
      pWfP o.1 ∧ o.1.nvars = s.nvars ∧ (∀ t ∈ o.2.1, t ∈ tokens)) := by
  obtain ⟨hval, hlev, hoval, hstamp, hlstamp, htloc, hreason, hwst⟩ := hwf
  obtain ⟨pushed, hcl, hcs, hmem, hrest⟩ :=
    readLits_clauses tokens { s with clauses := s.clauses ++ [0, litNil, litNil, litNil] } 0
  have hf1 := readLits_fields tokens
    { s with clauses := s.clauses ++ [0, litNil, litNil, litNil] } 0
  have hf2 := readLits_fields2 tokens
    { s with clauses := s.clauses ++ [0, litNil, litNil, litNil] } 0
  rcases hro : readLits { s with clauses := s.clauses ++ [0, litNil, litNil, litNil] }
      tokens 0 with ⟨s1, cs1, rest1, eof1⟩
  rw [hro] at hcl hcs hrest hf1 hf2
  dsimp only at hcl hcs hrest hf1 hf2
  obtain ⟨e1v, e1l, e1t, e1tr, e1f, e1n, e1w⟩ := hf1
  obtain ⟨e1o, e1s, e1ls, e1r⟩ := hf2
  have key : ∀ (r : Except PErr (PCnf × List Int × Bool × Bool)),
      parseClauseStep s tokens = r →
      r ≠ Except.error PErr.oob ∧
      (∀ o, r = Except.ok o →
        pWfP o.1 ∧ o.1.nvars = s.nvars ∧ (∀ t ∈ o.2.1, t ∈ tokens)) := by
    intro r hr
    unfold parseClauseStep at hr
    simp only [Bind.bind, Except.bind] at hr
    rw [hro] at hr
    dsimp only at hr
    by_cases hA : cs1 = 0 ∧ ¬eof1 = true
    · rw [if_pos hA] at hr
      subst hr
      exact ⟨by simp, by simp⟩
    · rw [if_neg hA] at hr
      by_cases hB : cs1 = 0 ∧ eof1 = true
      · rw [if_pos hB] at hr
        rw [if_pos hB.1] at hr
        subst hr
        refine ⟨by simp, ?_⟩
        intro o ho
        injection ho with ho
        subst ho
        refine ⟨?_, by dsimp only; rw [e1n], ?_⟩
        · exact ⟨by dsimp only; rw [e1v, e1n]; exact hval,
            by dsimp only; rw [e1l, e1n]; exact hlev,
            by dsimp only; rw [e1o, e1n]; exact hoval,
            by dsimp only; rw [e1s, e1n]; exact hstamp,
            by dsimp only; rw [e1ls, e1n]; exact hlstamp,
            by dsimp only; rw [e1t, e1n]; exact htloc,
            by dsimp only; rw [e1r, e1n]; exact hreason,
            by dsimp only; rw [e1w, e1n]; exact hwst⟩
        · intro t htm
          exact hrest t htm
      · have hcs0 : cs1 ≠ 0 := by
          intro h0
          rcases Bool.eq_false_or_eq_true eof1 with he | he
          · exact hB ⟨h0, he⟩
          · exact hA ⟨h0, by simp [he]⟩
        have hple : pushed.length = cs1 := by omega
        rw [if_neg hB] at hr
        by_cases hC : cs1 = 1
        · rw [if_pos hC] at hr
          obtain ⟨a, ha⟩ : ∃ a, pushed = [a] := by
            cases pushed with
            | nil => exfalso; simp at hple; omega
            | cons p0 prest =>
                cases prest with
                | nil => exact ⟨p0, rfl⟩
                | cons p1 p2 => rw [hC] at hple; simp at hple
          have hx : getI s1.clauses ((s1.clauses.length : Int) - 1) = a := by
            rw [hcl, ha]
            exact getI_concat_pred _ a
          have hamem := hmem a (by rw [ha]; exact List.mem_singleton.mpr rfl)
          have hab : |a| ≤ (s.nvars : Int) := htok a hamem.1 hamem.2
          have hun := unitAssign_spec s1 a (by rw [e1v, e1n]; exact hval)
            (by rw [e1t, e1n]; exact htloc) (by rw [e1l, e1n]; exact hlev)
            (by rw [e1n]; exact hab)
          dsimp only at hun
          rw [hx] at hr
          by_cases hcase : s1.val.getD |a|.toNat VState.UNSET ≠ VState.UNSET ∧
              s1.val.getD |a|.toNat VState.UNSET ≠ (if a < 0 then VState.FALSE else VState.TRUE)
          · rw [if_pos hcase] at hun
            rw [hun] at hr
            dsimp only at hr
            subst hr
            exact ⟨by simp, by simp⟩
          · rw [if_neg hcase] at hun
            rw [hun] at hr
            dsimp only at hr
            rw [if_neg hcs0] at hr
            have hl0 : getI ((s.clauses ++ [0, litNil, litNil, litNil]) ++ [a])
                (((s.clauses ++ [0, litNil, litNil, litNil]).length : Int)) = a :=
              getI_concat _ a
            obtain ⟨s3, hwi, hv3, hl3, ht3, htr3, hf3, hn3, hlbd3, hclen3⟩ :=
              watchInstall_spec
                { s1 with
                    val := s1.val.set |a|.toNat (if a < 0 then VState.FALSE else VState.TRUE)
                    tloc := s1.tloc.set |a|.toNat (Int.ofNat s1.f)
                    trail := updN s1.trail s1.f a
                    f := s1.f + 1
                    lev := s1.lev.set |a|.toNat 0 }
                (s.clauses ++ [0, litNil, litNil, litNil]).length 1
                (by dsimp only; rw [e1w, e1n]; exact hwst)
                (by dsimp only; rw [hcl, ha, hl0, e1n]; exact hab)
                (fun hgt => absurd hgt (by norm_num))
            rw [show cs1 = 1 from hC] at hr
            rw [hwi] at hr
            dsimp only at hr
            subst hr
            refine ⟨by simp, ?_⟩
            intro o ho
            injection ho with ho
            subst ho
            obtain ⟨sw, so, sst, sls, sre⟩ := watchInstall_ok_storage _ _ _ _ hwi
            refine ⟨?_, by dsimp only; rw [hn3]; dsimp only; rw [e1n], ?_⟩
            · refine ⟨?_, ?_, ?_, ?_, ?_, ?_, ?_, ?_⟩
              · dsimp only
                rw [hv3, hn3]
                dsimp only
                rw [List.length_set, e1v, e1n]
                exact hval
              · dsimp only
                rw [hl3, hn3]
                dsimp only
                rw [List.length_set, e1l, e1n]
                exact hlev
              · dsimp only
                rw [so, hn3]
                dsimp only
                rw [e1o, e1n]
                exact hoval
              · dsimp only
                rw [sst, hn3]
                dsimp only
                rw [e1s, e1n]
                exact hstamp
              · dsimp only
                rw [sls, hn3]
                dsimp only
                rw [e1ls, e1n]
                exact hlstamp
              · dsimp only
                rw [ht3, hn3]
                dsimp only
                rw [List.length_set, e1t, e1n]
                exact htloc
              · dsimp only
                rw [sre, hn3]
                dsimp only
                rw [e1r, e1n]
                exact hreason
              · dsimp only
                rw [sw, hn3]
                dsimp only
                rw [e1w, e1n]
                exact hwst
            · intro t htm
              exact hrest t htm
        · rw [if_neg hC] at hr
          rw [if_neg hcs0] at hr
          obtain ⟨p0, prest, hp⟩ : ∃ p0 prest, pushed = p0 :: prest := by
            cases pushed with
            | nil => rw [← hple] at hcs0; simp at hcs0
            | cons p0 prest => exact ⟨p0, prest, rfl⟩
          have hcsge : 2 ≤ cs1 := by omega
          obtain ⟨p1, prest2, hp2⟩ : ∃ p1 prest2, prest = p1 :: prest2 := by
            cases prest with
            | nil =>
                rw [hp] at hple
                simp at hple
                omega
            | cons p1 prest2 => exact ⟨p1, prest2, rfl⟩
          have hl0 : getI s1.clauses
              (((s.clauses ++ [0, litNil, litNil, litNil]).length : Int)) = p0 := by
            rw [hcl, hp]
            exact getI_append_head _ p0 _
          have hl1 : getI s1.clauses
              (((s.clauses ++ [0, litNil, litNil, litNil]).length : Int) + 1) = p1 := by
            rw [hcl, hp, hp2]
            exact getI_append_head1 _ p0 p1 _
          have hp0mem := hmem p0 (by rw [hp]; exact List.mem_cons_self _ _)
          have hp1mem := hmem p1 (by rw [hp, hp2]; exact List.mem_cons_of_mem _ (List.mem_cons_self _ _))
          obtain ⟨s3, hwi, hv3, hl3, ht3, htr3, hf3, hn3, hlbd3, hclen3⟩ :=
            watchInstall_spec s1 (s.clauses ++ [0, litNil, litNil, litNil]).length cs1
              (by rw [e1w, e1n]; exact hwst)
              (by rw [hl0, e1n]; exact htok p0 hp0mem.1 hp0mem.2)
              (fun _ => by rw [hl1, e1n]; exact htok p1 hp1mem.1 hp1mem.2)
          rw [hwi] at hr
          dsimp only at hr
          subst hr
          refine ⟨by simp, ?_⟩
          intro o ho
          injection ho with ho
          subst ho
          refine ⟨?_, by dsimp only; rw [hn3, e1n], ?_⟩
          · refine ⟨?_, ?_, ?_, ?_, ?_, ?_, ?_, ?_⟩
            · dsimp only; rw [hn3, e1n, hv3, e1v]; exact hval
            · dsimp only; rw [hn3, e1n, hl3, e1l]; exact hlev
            · dsimp only
              obtain ⟨-, so, -, -, -⟩ := watchInstall_ok_storage _ _ _ _ hwi
              rw [hn3, e1n, so, e1o]; exact hoval
            · dsimp only
              obtain ⟨-, -, sst, -, -⟩ := watchInstall_ok_storage _ _ _ _ hwi
              rw [hn3, e1n, sst, e1s]; exact hstamp
            · dsimp only
              obtain ⟨-, -, -, sls, -⟩ := watchInstall_ok_storage _ _ _ _ hwi
              rw [hn3, e1n, sls, e1ls]; exact hlstamp
            · dsimp only; rw [hn3, e1n, ht3, e1t]; exact htloc
            · dsimp only
              obtain ⟨-, -, -, -, sre⟩ := watchInstall_ok_storage _ _ _ _ hwi
              rw [hn3, e1n, sre, e1r]; exact hreason
            · dsimp only
              obtain ⟨sw, -, -, -, -⟩ := watchInstall_ok_storage _ _ _ _ hwi
              rw [hn3, e1n, sw, e1w]; exact hwst
          · intro t htm
            exact hrest t htm
  exact ⟨(key _ rfl).1, fun o ho => (key _ rfl).2 o ho⟩

/-- The freshly constructed parser state has the array sizes of the
`Cnf::Cnf` allocation. -/
theorem pInit_wf (nv nc : Nat) : pWfP (pInit nv nc) := by
  refine ⟨?_, ?_, ?_, ?_, ?_, ?_, ?_, ?_⟩ <;> simp [pInit, pWfP]

/-- The whole clause-reading loop makes no out-of-bounds access when every
literal is within the declared variable range. -/
theorem parseLoop_no_oob : ∀ (n : Nat) (s : PCnf) (tokens : List Int),
    (∀ t ∈ tokens, t ≠ 0 → |t| ≤ (s.nvars : Int)) → pWfP s →
    parseLoop n s tokens ≠ Except.error PErr.oob := by
  intro n
  induction n with
  | zero =>
      intro s tokens _ _
      simp [parseLoop]
  | succ n ih =>
      intro s tokens htok hwf
      obtain ⟨hne, hok⟩ := parseClauseStep_no_oob s tokens htok hwf
      unfold parseLoop
      simp only [Bind.bind, Except.bind]
      cases hstep : parseClauseStep s tokens with
      | error e =>
          cases e with
          | oob => exact absurd hstep hne
          | unsat => simp
      | ok o =>
          obtain ⟨hwf2, hnv, hsub⟩ := hok o hstep
          dsimp only
          by_cases h1 : o.2.2.1 = true
          · rw [if_pos h1]; simp
          · rw [if_neg h1]
            by_cases h2 : o.2.2.2 = true
            · rw [if_pos h2]; simp
            · rw [if_neg h2]
              refine ih o.1 o.2.1 ?_ hwf2
              intro t ht hne0
              rw [hnv]
              exact htok t (hsub t ht) hne0

/-- The whole parser makes no out-of-bounds access when every literal is
within the declared variable range. -/
theorem parseCnf_no_oob (nv nc : Nat) (tokens : List Int)
    (htok : ∀ t ∈ tokens, t ≠ 0 → |t| ≤ (nv : Int)) :
    parseCnf nv nc tokens ≠ Except.error PErr.oob := by
  have h := parseLoop_no_oob (tokens.length + 1) (pInit nv nc) tokens htok (pInit_wf nv nc)
  unfold parseCnf
  simp only [Bind.bind, Except.bind]
  cases hlp : parseLoop (tokens.length + 1) (pInit nv nc) tokens with
  | error e =>
      cases e with
      | oob => exact absurd hlp h
      | unsat => simp
  | ok s =>
      dsimp only
      split <;> simp

/-- `add_to_trail` stays in bounds whenever `|l| ≤ nvars` and the arrays
have their allocated sizes. -/
theorem addToTrailA_ok (s : PCnf) (l d r0 : Int) (hb : |l| ≤ (s.nvars : Int))
    (hval : s.val.length = s.nvars + 1) (hlev : s.lev.length = s.nvars + 1)
    (hoval : s.oval.length = s.nvars + 1) (htloc : s.tloc.length = s.nvars + 1)
    (hreason : s.reason.length = s.nvars + 1) :
    excIsOk (addToTrailA s l d r0) = true := by
  have h0 : (0 : Int) ≤ |l| := abs_nonneg l
  dsimp only [addToTrailA]
  rw [aSet_ok s.tloc |l| (Int.ofNat s.f) h0 (by omega)]
  simp only [Bind.bind, Except.bind]
  rw [aSet_ok s.val |l| (if l < 0 then VState.FALSE else VState.TRUE) h0 (by omega)]
  rw [aSet_ok s.lev |l| d h0 (by omega)]
  rw [aSet_ok s.reason |l| r0 h0 (by omega)]
  rw [aGet_ok s.oval |l| VState.FALSE h0 (by omega)]
  dsimp only
  rw [aGet_ok (s.val.set |l|.toNat (if l < 0 then VState.FALSE else VState.TRUE)) |l|
    VState.UNSET h0 (by rw [List.length_set]; omega)]
  rfl

/-- The parser-side part of the array-bounds property: under the
precondition that every literal `t` of the token stream has
`1 ≤ |t| ≤ nvars`, the parser's accesses to the per-variable arrays
`val`, `lev`, `oval`, `stamp`, `tloc`, `reason` (sized `nvars + 1`) and to
`watch` (stored over indices `-nvars..nvars`) are all in bounds (no
`PErr.oob`), and `add_to_trail` is likewise in bounds for `|l| ≤ nvars`;
the parser itself never checks the precondition: with `nvars = 1` the
clause `5 0` drives the level-0 unit assignment of line 331 out of
bounds.  (The search's own accesses to these arrays are modelled over
total maps and are not covered by this statement.) -/
theorem parse_array_bounds :
    (∀ (nv nc : Nat) (tokens : List Int),
      (∀ t ∈ tokens, t ≠ 0 → |t| ≤ (nv : Int)) →
      parseCnf nv nc tokens ≠ Except.error PErr.oob) ∧
    (∀ (s : PCnf) (l d r0 : Int), |l| ≤ (s.nvars : Int) →
      s.val.length = s.nvars + 1 → s.lev.length = s.nvars + 1 →
      s.oval.length = s.nvars + 1 → s.tloc.length = s.nvars + 1 →
      s.reason.length = s.nvars + 1 →
      excIsOk (addToTrailA s l d r0) = true) ∧
    errOf (parseCnf 1 1 [5, 0]) = some PErr.oob := by
  refine ⟨fun nv nc tokens h => parseCnf_no_oob nv nc tokens h,
    fun s l d r0 hb h1 h2 h3 h4 h5 => addToTrailA_ok s l d r0 hb h1 h2 h3 h4 h5,
    by decide⟩

/-- Witness for `parse_array_bounds` at concrete inputs. -/
theorem parse_array_bounds_witness :
    parseCnf 3 4 [-1, -2, 0, 3, 0] ≠ Except.error PErr.oob ∧
    excIsOk (addToTrailA (pInit 3 4) 2 0 clauseNil) = true :=
  ⟨parse_array_bounds.1 3 4 [-1, -2, 0, 3, 0] (by decide),
   parse_array_bounds.2.1 (pInit 3 4) 2 0 clauseNil (by decide) (by decide) (by decide)
     (by decide) (by decide) (by decide)⟩

/-- C8: during parse, a unit clause with literal `x` is assigned
immediately — `val(|x|)` is set TRUE if `x > 0` and FALSE if `x < 0`,
`lev(|x|) := 0`, `tloc(|x|) := f`, and `x` is pushed onto the trail — and
a unit contradicting a value set by an earlier unit makes the parser
`UNSAT_EXIT`, which prints `s UNSATISFIABLE` and exits with code 20 before
`solve` ever runs. -/
theorem parse_unit_immediate :
    (∀ (s : PCnf) (x : Int) (rest : List Int),
      x ≠ 0 → |x| ≤ (s.nvars : Int) →
      s.val.length = s.nvars + 1 → s.tloc.length = s.nvars + 1 →
      s.lev.length = s.nvars + 1 → s.watchStorage.length = 2 * s.nvars + 1 →
      (let sv := if x < 0 then VState.FALSE else VState.TRUE
       let cur := s.val.getD |x|.toNat VState.UNSET
       if cur ≠ VState.UNSET ∧ cur ≠ sv then
         parseClauseStep s (x :: 0 :: rest) = Except.error PErr.unsat
       else
         excIsOk (parseClauseStep s (x :: 0 :: rest)) = true ∧
         (excGetD (s, [], true, true) (parseClauseStep s (x :: 0 :: rest))).1.val.getD
           |x|.toNat VState.UNSET = sv ∧
         (excGetD (s, [], true, true) (parseClauseStep s (x :: 0 :: rest))).1.lev.getD
           |x|.toNat (-1) = 0 ∧
         (excGetD (s, [], true, true) (parseClauseStep s (x :: 0 :: rest))).1.tloc.getD
           |x|.toNat (-1) = Int.ofNat s.f ∧
         (excGetD (s, [], true, true) (parseClauseStep s (x :: 0 :: rest))).1.trail s.f = x ∧
         (excGetD (s, [], true, true) (parseClauseStep s (x :: 0 :: rest))).1.f = s.f + 1)) ∧
    (∀ nv nc toks iters fuel fuelW fuelR,
      parseCnf nv nc toks = Except.error PErr.unsat →
      mainRun nv nc toks iters fuel fuelW fuelR = ("s UNSATISFIABLE", unsatisfiableCode)) := by
  constructor
  · intro s x rest hx hb hval htloc hlev hw
    dsimp only
    have hrl : readLits { s with clauses := s.clauses ++ [0, litNil, litNil, litNil] }
        (x :: 0 :: rest) 0 =
        ({ s with clauses := (s.clauses ++ [0, litNil, litNil, litNil]) ++ [x] }, 1, rest,
          false) := by
      unfold readLits
      rw [if_neg hx]
      unfold readLits
      rw [if_pos rfl]
    dsimp only [parseClauseStep]
    rw [hrl]
    dsimp only
    rw [if_neg (by decide : ¬((1 : Nat) = 0 ∧ ¬(false = true)))]
    rw [if_neg (by decide : ¬((1 : Nat) = 0 ∧ false = true))]
    rw [if_pos (by decide : (1 : Nat) = 1)]
    rw [getI_concat_pred (s.clauses ++ [0, litNil, litNil, litNil]) x]
    have hspec := unitAssign_spec
      { s with clauses := (s.clauses ++ [0, litNil, litNil, litNil]) ++ [x] } x
      hval htloc hlev hb
    dsimp only at hspec
    by_cases hcase : s.val.getD |x|.toNat VState.UNSET ≠ VState.UNSET ∧
        s.val.getD |x|.toNat VState.UNSET ≠ (if x < 0 then VState.FALSE else VState.TRUE)
    · rw [if_pos hcase]
      rw [if_pos hcase] at hspec
      rw [hspec]
      simp [Bind.bind, Except.bind]
    · rw [if_neg hcase]
      rw [if_neg hcase] at hspec
      rw [hspec]
      simp only [Bind.bind, Except.bind]
      rw [if_neg (by decide : ¬((1 : Nat) = 0))]
      have hl0x : getI ((s.clauses ++ [0, litNil, litNil, litNil]) ++ [x])
          (((s.clauses ++ [0, litNil, litNil, litNil]).length : Int)) = x :=
        getI_concat _ x
      obtain ⟨s3, hwi, hv3, hl3, ht3, htr3, hf3, hn3, hlbd3, hclen3⟩ :=
        watchInstall_spec
          { s with
              clauses := (s.clauses ++ [0, litNil, litNil, litNil]) ++ [x]
              val := s.val.set |x|.toNat (if x < 0 then VState.FALSE else VState.TRUE)
              tloc := s.tloc.set |x|.toNat (Int.ofNat s.f)
              trail := updN s.trail s.f x
              f := s.f + 1
              lev := s.lev.set |x|.toNat 0 }
          (s.clauses ++ [0, litNil, litNil, litNil]).length 1
          hw (by rw [hl0x]; exact hb) (fun hgt => absurd hgt (by norm_num))
      rw [hwi]
      simp only [Except.bind]
      refine ⟨rfl, ?_, ?_, ?_, ?_, ?_⟩
      · dsimp only [excGetD]
        rw [hv3]
        exact getD_set_self _ _ _ _ (by omega)
      · dsimp only [excGetD]
        rw [hl3]
        exact getD_set_self _ _ _ _ (by omega)
      · dsimp only [excGetD]
        rw [ht3]
        exact getD_set_self _ _ _ _ (by omega)
      · dsimp only [excGetD]
        rw [htr3]
        exact updN_self _ _ _
      · dsimp only [excGetD]
        rw [hf3]
  · intro nv nc toks iters fuel fuelW fuelR h
    unfold mainRun
    rw [h]

/-- Witness for C8 at the input `p cnf 2 1 / 2 0`: the unit `2` is
assigned TRUE at trail position 0. -/
theorem parse_unit_immediate_witness :
    excIsOk (parseClauseStep (pInit 2 1) [2, 0]) = true ∧
    (excGetD (pInit 2 1, [], true, true) (parseClauseStep (pInit 2 1) [2, 0])).1.val.getD
      (|(2 : Int)|).toNat VState.UNSET = (if (2 : Int) < 0 then VState.FALSE else VState.TRUE) ∧
    (excGetD (pInit 2 1, [], true, true) (parseClauseStep (pInit 2 1) [2, 0])).1.f =
      (pInit 2 1).f + 1 := by
  have h := parse_unit_immediate.1 (pInit 2 1) 2 [] (by decide) (by decide) rfl rfl rfl rfl
  dsimp only at h
  rw [if_neg (by decide)] at h
  exact ⟨h.1, h.2.1, h.2.2.2.2.2⟩

/-- C4 (amended): during trail resolution, when the reason clause `rc` of
the literal being resolved satisfies `q + r + 1 < size(rc)` **and `q > 0`**
(the guard at line 645 — see the counterexample for the necessity of
`q > 0`), and the level-`≥ d` search succeeds, the clause is shrunk by
exactly one literal: `literal(rc,0)` is replaced by a literal of level
`≥ d` taken from positions `2..size-1`, the last slot becomes a trailing
tombstone `lit_nil`, `size(rc)` is decremented by 1, and `rc` is prepended
onto the watch list of its new `literal(rc,0)`. -/
theorem otf_subsumption_shrink
    (fuelW : Nat) (s : Cnf) (l d q r dp : Int)
    (hnil : s.reason |l| ≠ clauseNil)
    (hlit : getI s.clauses (s.reason |l|) = l)
    (hcond : (c4Acc s l d q r dp).2.1 + (c4Acc s l d q r dp).2.2.1 + 1 <
      getI (c4Acc s l d q r dp).1.clauses (s.reason |l| - 1))
    (hq : (c4Acc s l d q r dp).2.1 > 0)
    (hrm : mresIsOk (removeFromWatchlist fuelW (c4Acc s l d q r dp).1 (s.reason |l|) 0) = true)
    (hli : (findLi (c4S2 fuelW s l d q r dp) (s.reason |l|) d
      (getI (c4S2 fuelW s l d q r dp).clauses (s.reason |l| - 1))).isSome = true)
    (hb0 : 4 ≤ s.reason |l|)
    (hlen3 : 2 < getI (c4S2 fuelW s l d q r dp).clauses (s.reason |l| - 1))
    (hlen : (s.reason |l|).toNat +
        (getI (c4S2 fuelW s l d q r dp).clauses (s.reason |l| - 1)).toNat ≤
      (c4S2 fuelW s l d q r dp).clauses.length) :
    ∃ out, resolveStamped fuelW s l d q r dp =
        MRes.ok (out, (c4Acc s l d q r dp).2.1, (c4Acc s l d q r dp).2.2.1,
          (c4Acc s l d q r dp).2.2.2) ∧
      getI out.clauses (s.reason |l| - 1) =
        getI (c4S2 fuelW s l d q r dp).clauses (s.reason |l| - 1) - 1 ∧
      2 ≤ c4Li fuelW s l d q r dp ∧
      c4Li fuelW s l d q r dp ≤
        getI (c4S2 fuelW s l d q r dp).clauses (s.reason |l| - 1) - 1 ∧
      getI out.clauses (s.reason |l|) =
        getI (c4S2 fuelW s l d q r dp).clauses (s.reason |l| + c4Li fuelW s l d q r dp) ∧
      d ≤ (c4S2 fuelW s l d q r dp).lev
        |getI (c4S2 fuelW s l d q r dp).clauses (s.reason |l| + c4Li fuelW s l d q r dp)| ∧
      getI out.clauses
          (s.reason |l| + getI (c4S2 fuelW s l d q r dp).clauses (s.reason |l| - 1) - 1) =
        litNil ∧
      out.watch (getI out.clauses (s.reason |l|)) = s.reason |l| ∧
      getI out.clauses (s.reason |l| - 2) =
        (c4S2 fuelW s l d q r dp).watch
          (getI (c4S2 fuelW s l d q r dp).clauses (s.reason |l| + c4Li fuelW s l d q r dp)) := by
  obtain ⟨s2, hrw⟩ : ∃ x, removeFromWatchlist fuelW (c4Acc s l d q r dp).1 (s.reason |l|) 0 =
      MRes.ok x := by
    cases h : removeFromWatchlist fuelW (c4Acc s l d q r dp).1 (s.reason |l|) 0 with
    | ok x => exact ⟨x, rfl⟩
    | crash => rw [h] at hrm; exact absurd hrm (by simp [mresIsOk])
    | fuel => rw [h] at hrm; exact absurd hrm (by simp [mresIsOk])
  have hS2 : c4S2 fuelW s l d q r dp = s2 := by
    unfold c4S2; rw [hrw]; rfl
  rw [hS2] at hli hlen3 hlen ⊢
  obtain ⟨li, hfind⟩ := Option.isSome_iff_exists.mp hli
  have hLi : c4Li fuelW s l d q r dp = li := by
    unfold c4Li; rw [hS2, hfind]; rfl
  rw [hLi]
  obtain ⟨hli2, hlile, hlev⟩ :=
    findLiGo_spec s2 (s.reason |l|) d _ _ li (by unfold findLi at hfind; exact hfind)
  have hmech := shrink_mechanics s2.clauses s2.watch (s.reason |l|) li
    (getI s2.clauses (s.reason |l| - 1)) hb0 hli2 hlen3 rfl hlen
  dsimp only at hmech
  obtain ⟨m1, m2, m3, m4, m5⟩ := hmech
  unfold c4Acc at hcond hq hrw
  have hres : resolveStamped fuelW s l d q r dp =
      MRes.ok
        (otfShrink s2 (s.reason |l|) li (getI s2.clauses (s.reason |l| - 1)),
         (classifyReasonGo (s.reason |l|) d (getI s.clauses (s.reason |l| - 1) - 1).toNat 1
            (s, q - 1, r, dp)).2.1,
         (classifyReasonGo (s.reason |l|) d (getI s.clauses (s.reason |l| - 1) - 1).toNat 1
            (s, q - 1, r, dp)).2.2.1,
         (classifyReasonGo (s.reason |l|) d (getI s.clauses (s.reason |l| - 1) - 1).toNat 1
            (s, q - 1, r, dp)).2.2.2) := by
    dsimp only [resolveStamped]
    rw [if_neg hnil, if_neg (not_not_intro hlit), if_pos (And.intro hcond hq), hrw]
    dsimp only
    rw [show findLi s2 (s.reason |l|) d (getI s2.clauses (s.reason |l| - 1)) = some li from hfind]
  refine ⟨otfShrink s2 (s.reason |l|) li (getI s2.clauses (s.reason |l| - 1)),
    by unfold c4Acc; exact hres, ?_, hli2, hlile, ?_, hlev, ?_, ?_, ?_⟩
  · dsimp only [otfShrink]
    exact m1
  · dsimp only [otfShrink]
    exact m2
  · dsimp only [otfShrink]
    exact m3
  · dsimp only [otfShrink]
    rw [m2, m4]
    exact upd_self _ _ _
  · dsimp only [otfShrink]
    rw [getI_setI_eq _ _ _ (by omega) (by simp only [setI_length]; omega), m4]

/-- Witness for C4 (amended) at the concrete state `wC4` (`q = 2`,
`r = 1`, `d = 2`): the reason clause of size 4 is shrunk to size 3. -/
theorem otf_subsumption_shrink_witness :
    ∃ out, resolveStamped 10 wC4 5 2 2 1 1 =
        MRes.ok (out, (c4Acc wC4 5 2 2 1 1).2.1, (c4Acc wC4 5 2 2 1 1).2.2.1,
          (c4Acc wC4 5 2 2 1 1).2.2.2) ∧
      getI out.clauses (wC4.reason |(5 : Int)| - 1) =
        getI (c4S2 10 wC4 5 2 2 1 1).clauses (wC4.reason |(5 : Int)| - 1) - 1 := by
  obtain ⟨out, h1, h2, -⟩ := otf_subsumption_shrink 10 wC4 5 2 2 1 1
    (by decide) (by decide) (by decide) (by decide) (by decide) (by decide)
    (by decide) (by decide) (by decide)
  exact ⟨out, h1, h2⟩

/-- C4 counterexample: at `cexC4` the reason clause `(5 ∨ -6 ∨ -7)` of the
resolved literal `5` satisfies `q + r + 1 = 2 < 3 = size`, yet — because
`q = 0` after classification, and the source's guard at line 645 also
requires `q > 0` — the clause is left completely unchanged, not shrunk. -/
theorem otf_subsumption_counterexample :
    ((c4Acc cexC4 5 2 1 1 1).2.1 + (c4Acc cexC4 5 2 1 1 1).2.2.1 + 1 <
      getI (c4Acc cexC4 5 2 1 1 1).1.clauses (cexC4.reason 5 - 1)) ∧
    (c4Acc cexC4 5 2 1 1 1).2.1 = 0 ∧
    mresIsOk (resolveStamped 10 cexC4 5 2 1 1 1) = true ∧
    (mresGetD (cexC4, 0, 0, 0) (resolveStamped 10 cexC4 5 2 1 1 1)).1.clauses =
      cexC4.clauses := by
  exact ⟨by decide, by decide, by decide, by decide⟩

theorem addToTrail_clauses (s : Cnf) (l d r : Int) :
    (addToTrail s l d r).clauses = s.clauses := rfl

/-- The watch-scan of step C4 only rewrites literal cells in place. -/
theorem scanGo_clauses_length (w : Int) : ∀ (n : Nat) (i : Int) (s : Cnf) (tombs : Bool),
    (scanGo w n i s tombs).1.clauses.length = s.clauses.length := by
  intro n
  induction n with
  | zero => intro i s tombs; rfl
  | succ n ih =>
      intro i s tombs
      dsimp only [scanGo]
      by_cases h1 : isFalse s (getI s.clauses (w + i)) ∧ s.lev |getI s.clauses (w + i)| = 0
      · rw [if_pos h1, ih]
        simp [setI_length]
      · rw [if_neg h1]
        by_cases h2 : ¬ isFalse s (getI s.clauses (w + i))
        · rw [if_pos h2]
          simp [setI_length]
        · rw [if_neg h2]
          exact ih _ _ _

/-- The first compaction loop only rewrites literal cells in place. -/
theorem compactGo_clauses_length (w : Int) : ∀ (n : Nat) (i j : Int) (s : Cnf),
    (compactGo w n i j s).1.clauses.length = s.clauses.length := by
  intro n
  induction n with
  | zero => intro i j s; rfl
  | succ n ih =>
      intro i j s
      dsimp only [compactGo]
      by_cases h1 : getI s.clauses (w + i) ≠ litNil
      · rw [if_pos h1, ih]
        by_cases h2 : i ≠ j
        · rw [if_pos h2]
          simp [setI_length]
        · rw [if_neg h2]
      · rw [if_neg h1]
        exact ih _ _ _

/-- The tail-tombstoning loop only rewrites literal cells in place. -/
theorem tombGo_clauses_length (w : Int) : ∀ (n : Nat) (i : Int) (s : Cnf),
    (tombGo w n i s).clauses.length = s.clauses.length := by
  intro n
  induction n with
  | zero => intro i s; rfl
  | succ n ih =>
      intro i s
      dsimp only [tombGo]
      rw [ih]
      simp [setI_length]

/-- Tombstone compaction rewrites cells and the size header, never the
arena length. -/
theorem compact_clauses_length (s : Cnf) (w : Int) :
    (compact s w).clauses.length = s.clauses.length := by
  dsimp only [compact]
  split <;>
    simp [setI_length, tombGo_clauses_length, compactGo_clauses_length]

/-- Processing one watched clause never changes the arena length. -/
theorem propClause_clauses_length (s : Cnf) (l d w : Int) :
    (propClause s l d w).s.clauses.length = s.clauses.length := by
  dsimp only [propClause]
  repeat' split
  all_goals
    simp [scanGo_clauses_length, compact_clauses_length, setI_length, addToTrail_clauses]

/-- The watch-list walk never changes the arena length. -/
theorem propWalk_clauses_length : ∀ (n : Nat) (s : Cnf) (l d w wll : Int)
    (out : Cnf × Bool × Int × Int), propWalk n s l d w wll = some out →
    out.1.clauses.length = s.clauses.length := by
  intro n
  induction n with
  | zero => intro s l d w wll out h; simp [propWalk] at h
  | succ n ih =>
      intro s l d w wll out h
      dsimp only [propWalk] at h
      by_cases hw : w = clauseNil
      · rw [if_pos hw] at h
        injection h with h
        subst h
        rfl
      · rw [if_neg hw] at h
        by_cases hc : (propClause s l d w).conflict = true
        · rw [if_pos hc] at h
          injection h with h
          subst h
          exact propClause_clauses_length s l d w
        · rw [if_neg hc] at h
          by_cases ha : (propClause s l d w).allFalse = true
          · rw [if_pos ha] at h
            by_cases hwll : wll = clauseNil
            · rw [if_pos hwll] at h
              rw [ih _ _ _ _ _ _ h]
              exact propClause_clauses_length s l d w
            · rw [if_neg hwll] at h
              rw [ih _ _ _ _ _ _ h]
              dsimp only
              rw [setI_length]
              exact propClause_clauses_length s l d w
          · rw [if_neg ha] at h
            rw [ih _ _ _ _ _ _ h]
            exact propClause_clauses_length s l d w

/-- Step C3 never changes the arena length: propagation rewrites clause
cells and watch pointers but appends nothing. -/
theorem c3phase_clauses_length (fuel : Nat) (s : Cnf) (d : Int) (out : Cnf × Bool × Int)
    (h : c3phase fuel s d = some out) : out.1.clauses.length = s.clauses.length := by
  dsimp only [c3phase] at h
  split at h
  · exact absurd h (by simp)
  · rename_i s1 confl w wll heq
    have hlen := propWalk_clauses_length _ _ _ _ _ _ _ heq
    by_cases hwll : wll = clauseNil
    · rw [if_pos hwll] at h
      injection h with h
      subst h
      exact hlen
    · rw [if_neg hwll] at h
      injection h with h
      subst h
      dsimp only
      rw [setI_length]
      exact hlen

/-- A `.go` outcome of steps C5/C6 (no restart) leaves the clause arena
entirely unchanged: the solution check, the (empty) purge, and a decision
touch only heap, trail and per-variable state. -/
theorem c5phase_go_clauses (ss ss1 : SState) (h : c5phase ss = C5Res.go ss1) :
    ss1.c.clauses = ss.c.clauses := by
  dsimp only [c5phase] at h
  by_cases h1 : ss.c.f ≠ ss.c.g
  · rw [if_pos h1] at h
    injection h with h
    subst h
    rfl
  · rw [if_neg h1] at h
    by_cases h2 : ss.c.f = ss.c.nvars
    · rw [if_pos h2] at h
      exact absurd h (by simp)
    · rw [if_neg h2] at h
      by_cases h3 : (if ss.c.nlemmas > kMaxLemmas then purgeLemmas ss.c else ss.c).agility <
            2 ^ 30 ∧
          1000 ≤ (if ss.c.nlemmas > kMaxLemmas then purgeLemmas ss.c else ss.c).epoch -
            ss.lastRestart
      · rw [if_pos h3] at h
        exact absurd h (by simp)
      · rw [if_neg h3] at h
        split at h
        · exact absurd h (by simp)
        · rename_i k hp heq
          by_cases hk : k = litNil
          · rw [if_pos hk] at h
            exact absurd h (by simp)
          · rw [if_neg hk] at h
            injection h with h
            subst h
            dsimp only
            rw [addToTrail_clauses]
            dsimp only
            by_cases hnl : ss.c.nlemmas > kMaxLemmas
            · rw [if_pos hnl]
              rfl
            · rw [if_neg hnl]

/-- One controller iteration returns UNSAT exactly when steps C5/C6 hand a
state at decision level 0 to propagation and propagation reports a
conflict. -/
theorem solveBody_unsat_iff (fuel fuelW fuelR : Nat) (ss : SState) (c2 : Cnf) :
    solveBody fuel fuelW fuelR ss = StepRes.unsat c2 ↔
    ∃ ss1 w, c5phase ss = C5Res.go ss1 ∧ ss1.d = 0 ∧
      c3phase fuel ss1.c ss1.d = some (c2, true, w) := by
  constructor
  · intro h
    dsimp only [solveBody] at h
    split at h
    · exact absurd h (by simp)
    · exact absurd h (by simp)
    · exact absurd h (by simp)
    · rename_i ss1 hgo
      split at h
      · exact absurd h (by simp)
      · exact absurd h (by simp)
      · rename_i c2x w hc3
        split at h
        · rename_i hd
          injection h with h
          subst h
          exact ⟨ss1, w, hgo, hd, hc3⟩
        · split at h
          · exact absurd h (by simp)
          · exact absurd h (by simp)
          · exact absurd h (by simp)
  · rintro ⟨ss1, w, hgo, hd, hc3⟩
    dsimp only [solveBody]
    rw [hgo]
    dsimp only
    rw [hc3]
    dsimp only
    rw [if_pos hd]

/-- The iterated controller loop returns UNSAT only when some iteration's
body does. -/
theorem solveLoop_unsat_body : ∀ (n fuel fuelW fuelR : Nat) (ss : SState) (c2 : Cnf),
    solveLoop n fuel fuelW fuelR ss = SolveRes.unsat c2 →
    ∃ ss', solveBody fuel fuelW fuelR ss' = StepRes.unsat c2 := by
  intro n
  induction n with
  | zero =>
      intro fuel fuelW fuelR ss c2 h
      simp [solveLoop] at h
  | succ n ih =>
      intro fuel fuelW fuelR ss c2 h
      dsimp only [solveLoop] at h
      split at h
      · exact absurd h (by simp)
      · rename_i c heq
        injection h with h
        subst h
        exact ⟨ss, heq⟩
      · exact ih _ _ _ _ _ h
      · exact absurd h (by simp)
      · exact absurd h (by simp)

/-- C3 (amended): the controller returns `false` exactly through the
level-0-conflict path of step C7 (line 549–551): a conflict found by
propagation while `d = 0`.  On that path the clause store may be rewritten
in place (watched-literal surgery and tombstoning), but no clause is ever
appended — the arena length is preserved by propagation, and the C5/C6
steps leading in leave the arena unchanged — and `main` then prints
`s UNSATISFIABLE` and exits with code 20. -/
theorem solve_false_level0 :
    (∀ (fuel fuelW fuelR : Nat) (ss : SState) (c2 : Cnf),
      solveBody fuel fuelW fuelR ss = StepRes.unsat c2 ↔
      ∃ ss1 w, c5phase ss = C5Res.go ss1 ∧ ss1.d = 0 ∧
        c3phase fuel ss1.c ss1.d = some (c2, true, w)) ∧
    (∀ (ss ss1 : SState), c5phase ss = C5Res.go ss1 → ss1.c.clauses = ss.c.clauses) ∧
    (∀ (fuel : Nat) (s : Cnf) (d : Int) (out : Cnf × Bool × Int),
      c3phase fuel s d = some out → out.1.clauses.length = s.clauses.length) ∧
    (∀ (n fuel fuelW fuelR : Nat) (ss : SState) (c2 : Cnf),
      solveLoop n fuel fuelW fuelR ss = SolveRes.unsat c2 →
      ∃ ss', solveBody fuel fuelW fuelR ss' = StepRes.unsat c2) ∧
    mainVerdict false = ("s UNSATISFIABLE", unsatisfiableCode) :=
  ⟨solveBody_unsat_iff, c5phase_go_clauses, c3phase_clauses_length, solveLoop_unsat_body,
    rfl⟩

/-- Witness for `solve_false_level0` on the concrete UNSAT input
`(-1 ∨ -2) ∧ (-1 ∨ -2 ∨ 3) ∧ (-1 ∨ 2) ∧ (1)`: the first controller
iteration returns UNSAT, and it does so through a level-0 conflict. -/
theorem solve_false_level0_witness :
    ∃ ss1 w, c5phase cex3S = C5Res.go ss1 ∧ ss1.d = 0 ∧
      c3phase 100 ss1.c ss1.d = some (cex3Out, true, w) :=
  (solve_false_level0.1 100 100 100 cex3S cex3Out).mp rfl

/-- C3 counterexample to the unamended wording: on the same concrete
input the body returns UNSAT from the level-0 conflict, yet the clause
store IS modified on the way (watched-literal surgery rewrites header and
literal cells during the propagation that finds the conflict). -/
theorem solve_false_level0_counterexample :
    stepResIsUnsat (solveBody 100 100 100 cex3S) = true ∧
    (stepResCnf cex3S.c (solveBody 100 100 100 cex3S)).clauses ≠ cex3S.c.clauses :=
  ⟨rfl, by decide⟩

end Cdcl
